import Mathlib

/-!
Verification of the Meta-Talk presence/signaling relay.

Code embedded here:
* `server/src/index.ts` — the Socket.IO server: the in-memory room store
  (`rooms : Map<roomId, Map<socketId, Player>>`), the per-socket
  `currentRoomId` closure variable, the JOIN_ROOM / PLAYER_MOVE /
  signaling-relay / disconnect handlers, and the color palette.
* `shared/src/index.ts` — the `Player` record and event names.
* the client voice-chat endpoint: the `VoiceChatManager` class
  (`client/src/game/WorldScene.ts`) and the `CALL_REQUEST` handler of the
  `App` component.

JavaScript `Map`s are modelled as insertion-ordered association lists with
the exact `get` / `set` / `delete` / `has` / `size` / `values` semantics.
Positions are integers; the spawn jitter drawn from the external random
source is passed into the join event as an explicit parameter.  Socket.IO
room membership (`socket.join`, `socket.to`, `io.to`) is modelled
explicitly, since the emission targets of the handlers are computed from it:
every socket is placed in the room named by its own id on connection, and a
socket leaves all socket.io rooms when it disconnects.
-/

namespace MTalk

/-- `Player` (shared/src/index.ts). -/
structure Player where
  id : String
  x : Int
  y : Int
  roomId : String
  color : String
deriving DecidableEq

/-- JS `Map.get`. -/
def alGet {β : Type} : List (String × β) → String → Option β
  | [], _ => none
  | (k, v) :: rest, key => if k = key then some v else alGet rest key

/-- JS `Map.has`. -/
def alHas {β : Type} (m : List (String × β)) (key : String) : Bool :=
  (alGet m key).isSome

/-- JS `Map.set`: overwrites in place when the key is present (keeping
insertion order), appends at the end otherwise. -/
def alSet {β : Type} : List (String × β) → String → β → List (String × β)
  | [], key, v => [(key, v)]
  | (k, w) :: rest, key, v =>
      if k = key then (key, v) :: rest else (k, w) :: alSet rest key v

/-- JS `Map.delete` (keys are unique in a `Map`). -/
def alDel {β : Type} : List (String × β) → String → List (String × β)
  | [], _ => []
  | (k, w) :: rest, key => if k = key then rest else (k, w) :: alDel rest key

/-- The fixed color palette `COLORS` (server/src/index.ts). -/
def COLORS : List String :=
  ["#FF6B6B", "#4ECDC4", "#45B7D1", "#96CEB4",
   "#FFEAA7", "#DDA0DD", "#98D8C8", "#F7DC6F"]

/-- `pickColor` (server/src/index.ts): palette indexed modulo its length. -/
def pickColor (index : Nat) : String :=
  COLORS.getD (index % COLORS.length) ""

/-- Event name `EVENTS.ROOM_STATE`. -/
def ROOM_STATE : String := "room:state"

/-- Event name `EVENTS.PLAYER_JOINED`. -/
def PLAYER_JOINED : String := "player:joined"

/-- Event name `EVENTS.PLAYER_LEFT`. -/
def PLAYER_LEFT : String := "player:left"

/-- Event name `EVENTS.PLAYER_MOVED`. -/
def PLAYER_MOVED : String := "player:moved"

/-- Event name `EVENTS.SELF_PLAYER`. -/
def SELF_PLAYER : String := "self:player"

/-- Event name `EVENTS.CALL_DECLINE`. -/
def CALL_DECLINE : String := "call:decline"

/-- Event name `EVENTS.WEBRTC_ANSWER`. -/
def WEBRTC_ANSWER : String := "webrtc:answer"

/-- A message payload emitted by the server. Signaling payloads are opaque
to the relay: `sig sender target data` stands for `{from, to, ...rest}`. -/
inductive Payload where
  | roomState (players : List Player)
  | selfPlayer (p : Player)
  | playerJoined (p : Player)
  | playerMoved (id : String) (x y : Int)
  | playerLeft (id : String)
  | sig (sender target data : String)
deriving DecidableEq

/-- One outbound message: the socket ids it is addressed to (computed from
socket.io room membership at emission time), the event name, the payload. -/
structure Emit where
  receivers : List String
  event : String
  payload : Payload
deriving DecidableEq

/-- The server's state: the room store `rooms`, the per-socket
`currentRoomId` closure variable of every live connection (`none` = null),
and socket.io room membership (room name to member socket ids). -/
structure ServerState where
  rooms : List (String × List (String × Player))
  conns : List (String × Option String)
  sio : List (String × List String)
deriving DecidableEq

/-- The state at process start: no rooms, no connections. -/
def initState : ServerState := ⟨[], [], []⟩

/-- `socket.join(room)`: socket.io adds the socket to the room's member set. -/
def sioJoin (sio : List (String × List String)) (roomName sid : String) :
    List (String × List String) :=
  match alGet sio roomName with
  | none => alSet sio roomName [sid]
  | some ms => if sid ∈ ms then sio else alSet sio roomName (ms ++ [sid])

/-- On disconnect, socket.io removes the socket from every room. -/
def sioLeaveAll (sio : List (String × List String)) (sid : String) :
    List (String × List String) :=
  sio.map (fun rm => (rm.1, rm.2.filter (fun m => m != sid)))

/-- The member socket ids of a socket.io room. -/
def sioMembers (sio : List (String × List String)) (roomName : String) :
    List String :=
  (alGet sio roomName).getD []

/-- Whether a socket id belongs to a live connection. -/
def isConnected (st : ServerState) (sid : String) : Bool :=
  alHas st.conns sid

/-- The inputs the server reacts to.  `joinRoom` carries the two jitter
values the spawn computation samples from `Math.random()`; `signal` covers
the seven relayed call/WebRTC events, with an opaque payload `data`
alongside the target id. -/
inductive SEvent where
  | connect (sid : String)
  | joinRoom (sid roomId : String) (rx ry : Int)
  | playerMove (sid : String) (x y : Int)
  | signal (event sid target data : String)
  | disconnect (sid : String)
deriving DecidableEq

/-- `io.on("connection")`: registers the socket (fresh `currentRoomId =
null`); socket.io places every socket in the room named by its own id. -/
def connectStep (st : ServerState) (sid : String) : ServerState × List Emit :=
  if isConnected st sid then (st, [])
  else ({ rooms := st.rooms, conns := alSet st.conns sid none,
          sio := sioJoin st.sio sid sid }, [])

/-- The JOIN_ROOM handler (server/src/index.ts lines 82-128). -/
def joinStep (st : ServerState) (sid roomId : String) (rx ry : Int) :
    ServerState × List Emit :=
  if isConnected st sid then
    let conns1 := alSet st.conns sid (some roomId)
    let room := (alGet st.rooms roomId).getD []
    let newPlayer : Player :=
      match alGet room sid with
      | some ex =>
          { id := sid, x := ex.x, y := ex.y, roomId := roomId, color := ex.color }
      | none =>
          { id := sid, x := 800 + rx, y := 600 + ry, roomId := roomId,
            color := pickColor room.length }
    let room1 := alSet room sid newPlayer
    let sio1 := sioJoin st.sio roomId sid
    let others := (room1.map Prod.snd).filter (fun p => p.id != sid)
    let baseEms : List Emit :=
      [⟨[sid], ROOM_STATE, .roomState others⟩,
       ⟨[sid], SELF_PLAYER, .selfPlayer newPlayer⟩]
    let ems := if alHas room sid then baseEms
      else baseEms ++ [⟨(sioMembers sio1 roomId).filter (fun m => m != sid),
                        PLAYER_JOINED, .playerJoined newPlayer⟩]
    ({ rooms := alSet st.rooms roomId room1, conns := conns1, sio := sio1 }, ems)
  else (st, [])

/-- The PLAYER_MOVE handler (server/src/index.ts lines 136-156).  The guard
`if (!currentRoomId) return` drops both a null and an empty-string room id
(the empty string is falsy in JavaScript). -/
def moveStep (st : ServerState) (sid : String) (x y : Int) :
    ServerState × List Emit :=
  if isConnected st sid then
    match alGet st.conns sid with
    | some (some rid) =>
      if rid = "" then (st, [])
      else
        match alGet st.rooms rid with
        | none => (st, [])
        | some room =>
          match alGet room sid with
          | none => (st, [])
          | some p =>
            ({ st with
                rooms := alSet st.rooms rid (alSet room sid { p with x := x, y := y }) },
             [⟨(sioMembers st.sio rid).filter (fun m => m != sid), PLAYER_MOVED,
               .playerMoved sid x y⟩])
    | _ => (st, [])
  else (st, [])

/-- The signaling relay (server/src/index.ts lines 174-201):
`socket.to(payload.to).emit(event, {from: socket.id, ...payload})`.
`socket.to` targets the members of the socket.io room named by the target
id, excluding the sender. -/
def relayStep (st : ServerState) (event sid target data : String) :
    ServerState × List Emit :=
  if isConnected st sid then
    (st, [⟨(sioMembers st.sio target).filter (fun m => m != sid), event,
           .sig sid target data⟩])
  else (st, [])

/-- The disconnect handler (server/src/index.ts lines 204-223), plus the
socket.io bookkeeping (the socket leaves every room; PLAYER_LEFT is emitted
with `io.to` after that, so its receivers are taken from the updated
membership).  The handler's `if (!currentRoomId) return` and
`if (!room) return` guards skip the room-store cleanup. -/
def discStep (st : ServerState) (sid : String) : ServerState × List Emit :=
  if isConnected st sid then
    let conns1 := alDel st.conns sid
    let sio1 := sioLeaveAll st.sio sid
    match alGet st.conns sid with
    | some (some rid) =>
      if rid = "" then ({ rooms := st.rooms, conns := conns1, sio := sio1 }, [])
      else
        match alGet st.rooms rid with
        | none => ({ rooms := st.rooms, conns := conns1, sio := sio1 }, [])
        | some room =>
          let room1 := alDel room sid
          let rooms1 := if room1 = [] then alDel st.rooms rid
                        else alSet st.rooms rid room1
          ({ rooms := rooms1, conns := conns1, sio := sio1 },
           [⟨sioMembers sio1 rid, PLAYER_LEFT, .playerLeft sid⟩])
    | _ => ({ rooms := st.rooms, conns := conns1, sio := sio1 }, [])
  else (st, [])

/-- One server step: dispatch on the incoming event. -/
def step (st : ServerState) : SEvent → ServerState × List Emit
  | .connect sid => connectStep st sid
  | .joinRoom sid roomId rx ry => joinStep st sid roomId rx ry
  | .playerMove sid x y => moveStep st sid x y
  | .signal ev sid target data => relayStep st ev sid target data
  | .disconnect sid => discStep st sid

/-- The state after one step. -/
def stepSt (st : ServerState) (e : SEvent) : ServerState := (step st e).1

/-- The messages one step emits. -/
def stepEms (st : ServerState) (e : SEvent) : List Emit := (step st e).2

/-- Run a sequence of events from a given state. -/
def runFrom (st : ServerState) : List SEvent → ServerState
  | [] => st
  | e :: tr => runFrom (stepSt st e) tr

/-- The server state reached by an event sequence from process start. -/
def runTrace (tr : List SEvent) : ServerState := runFrom initState tr

/-! ## The client voice-chat endpoint
`VoiceChatManager` (client/src/game/WorldScene.ts) plus the `CALL_REQUEST`
handler of the `App` component.  Session descriptions and candidates are
opaque strings; `applied` is the observation of the endpoint: the sequence
of `pc.addIceCandidate` invocations, in order. -/

/-- The call lifecycle states (`CallState` in WorldScene.ts). -/
inductive CallState where
  | idle
  | calling
  | receiving
  | connected
deriving DecidableEq

/-- A message the client endpoint emits through the socket. -/
structure CEmit where
  event : String
  target : String
  data : String
deriving DecidableEq

/-- The fields of `VoiceChatManager` the candidate/call logic reads and
writes: `pcAlive` is `this.pc !== null`, `applied` records every
`addIceCandidate` call made so far. -/
structure VoiceState where
  pcAlive : Bool
  remoteDescSet : Bool
  iceBuffer : List String
  applied : List String
  callSt : CallState
  peerId : Option String
deriving DecidableEq

/-- Field initializers of `VoiceChatManager`. -/
def voiceInit : VoiceState :=
  { pcAlive := false, remoteDescSet := false, iceBuffer := [], applied := [],
    callSt := .idle, peerId := none }

/-- The WEBRTC_ICE socket handler: buffer the candidate when the remote
description is not yet set (or no peer connection exists), else apply it
(application failures are caught and ignored, so `applied` records the
attempt either way). -/
def onIce (s : VoiceState) (cand : String) : VoiceState :=
  if !s.remoteDescSet || !s.pcAlive then
    { s with iceBuffer := s.iceBuffer ++ [cand] }
  else
    { s with applied := s.applied ++ [cand] }

/-- `flushIceBuffer`: applies each buffered candidate in order
(`this.pc?.addIceCandidate` is skipped entirely when `pc` is null), then
clears the buffer. -/
def flushIce (s : VoiceState) : VoiceState :=
  { s with
      applied := s.applied ++ (if s.pcAlive then s.iceBuffer else []),
      iceBuffer := [] }

/-- `createPeerConnection`: fresh `RTCPeerConnection`, and the reset
`this.remoteDescSet = false; this.iceBuffer = []`. -/
def createPC (s : VoiceState) : VoiceState :=
  { s with pcAlive := true, remoteDescSet := false, iceBuffer := [] }

/-- The WEBRTC_ANSWER socket handler: no-op without a peer connection, else
set the remote description and flush the candidate buffer. -/
def onAnswer (s : VoiceState) : VoiceState :=
  if !s.pcAlive then s
  else flushIce { s with remoteDescSet := true }

/-- `markReceiving` (called by the App CALL_REQUEST handler). -/
def markReceiving (s : VoiceState) (fromId : String) : VoiceState :=
  { s with peerId := some fromId, callSt := .receiving }

/-- The App component's CALL_REQUEST handler: an endpoint that is not idle
auto-declines (`socket.emit(CALL_DECLINE, {to: payload.from})`) and keeps
its state; an idle endpoint becomes `receiving`. -/
def onCallRequest (s : VoiceState) (fromId : String) : VoiceState × List CEmit :=
  if s.callSt ≠ .idle then (s, [⟨CALL_DECLINE, fromId, ""⟩])
  else (markReceiving s fromId, [])

/-- `acceptCall` (success path of the async code): guard on `receiving`,
`setupLocalStream`, `createPeerConnection` (which clears the candidate
buffer), `setRemoteDescription` + `flushIceBuffer`, then send the answer. -/
def acceptCall (s : VoiceState) (peer offerSdp : String) :
    VoiceState × List CEmit :=
  if s.callSt ≠ .receiving then (s, [])
  else
    let s1 := createPC { s with peerId := some peer }
    let s2 := flushIce { s1 with remoteDescSet := true }
    (s2, [⟨WEBRTC_ANSWER, peer, offerSdp⟩])

/-! ## Association-list lemmas -/

/-- The keys of an association list, in order. -/
def keys {β : Type} (m : List (String × β)) : List String := m.map Prod.fst

theorem alGet_alSet_self {β : Type} (m : List (String × β)) (k : String) (v : β) :
    alGet (alSet m k v) k = some v := by
  induction m with
  | nil => simp [alSet, alGet]
  | cons hd tl ih =>
    by_cases h : hd.1 = k
    · simp [alSet, alGet, h]
    · simp [alSet, alGet, h, ih]

theorem alGet_alSet_ne {β : Type} (m : List (String × β)) (k k' : String) (v : β)
    (h : k ≠ k') : alGet (alSet m k v) k' = alGet m k' := by
  induction m with
  | nil => simp [alSet, alGet, h]
  | cons hd tl ih =>
    obtain ⟨a, b⟩ := hd
    by_cases h1 : a = k
    · subst h1
      simp [alSet, alGet, h, Ne.symm h]
    · by_cases h2 : a = k'
      · subst h2
        simp [alSet, alGet, h1]
      · simp [alSet, alGet, h1, h2, ih]

theorem alGet_alDel_ne {β : Type} (m : List (String × β)) (k k' : String)
    (h : k ≠ k') : alGet (alDel m k) k' = alGet m k' := by
  induction m with
  | nil => simp [alDel]
  | cons hd tl ih =>
    obtain ⟨a, b⟩ := hd
    by_cases h1 : a = k
    · subst h1
      simp [alDel, alGet, h]
    · by_cases h2 : a = k'
      · subst h2
        simp [alDel, alGet, h1]
      · simp [alDel, alGet, h1, h2, ih]

theorem mem_keys_of_alGet {β : Type} {m : List (String × β)} {k : String} {v : β}
    (h : alGet m k = some v) : k ∈ keys m := by
  induction m with
  | nil => simp [alGet] at h
  | cons hd tl ih =>
    by_cases h1 : hd.1 = k
    · simp [keys, h1]
    · simp [alGet, h1] at h
      simp [keys] at ih ⊢
      exact Or.inr (ih h)

theorem alGet_eq_none_of_not_mem {β : Type} {m : List (String × β)} {k : String}
    (h : k ∉ keys m) : alGet m k = none := by
  induction m with
  | nil => simp [alGet]
  | cons hd tl ih =>
    obtain ⟨a, b⟩ := hd
    simp [keys] at h
    simp [alGet, Ne.symm h.1]
    exact ih (by simpa [keys] using h.2)

theorem mem_of_alGet {β : Type} {m : List (String × β)} {k : String} {v : β}
    (h : alGet m k = some v) : (k, v) ∈ m := by
  induction m with
  | nil => simp [alGet] at h
  | cons hd tl ih =>
    obtain ⟨a, b⟩ := hd
    by_cases h1 : a = k
    · subst h1
      simp [alGet] at h
      simp [h]
    · simp [alGet, h1] at h
      exact List.mem_cons_of_mem _ (ih h)

theorem alGet_of_mem_nodup {β : Type} {m : List (String × β)} {k : String} {v : β}
    (hn : (keys m).Nodup) (h : (k, v) ∈ m) : alGet m k = some v := by
  induction m with
  | nil => simp at h
  | cons hd tl ih =>
    obtain ⟨a, b⟩ := hd
    rw [keys, List.map_cons, List.nodup_cons] at hn
    rcases List.mem_cons.mp h with h1 | h1
    · rw [Prod.mk.injEq] at h1
      simp [alGet, h1.1, h1.2]
    · have hk : (k, v).1 ∈ List.map Prod.fst tl := List.mem_map_of_mem Prod.fst h1
      have hne : a ≠ k := fun he => hn.1 (by rw [he]; exact hk)
      simp [alGet, hne]
      exact ih (by simpa [keys] using hn.2) h1

theorem keys_alSet_of_mem {β : Type} (m : List (String × β)) (k : String) (v : β)
    (h : k ∈ keys m) : keys (alSet m k v) = keys m := by
  induction m with
  | nil => simp [keys] at h
  | cons hd tl ih =>
    obtain ⟨a, b⟩ := hd
    by_cases h1 : a = k
    · subst h1
      simp [alSet, keys]
    · simp [keys, Ne.symm h1] at h
      simp [alSet, keys, h1]
      simpa [keys] using ih (by simpa [keys] using h)

theorem keys_alSet_of_not_mem {β : Type} (m : List (String × β)) (k : String) (v : β)
    (h : k ∉ keys m) : keys (alSet m k v) = keys m ++ [k] := by
  induction m with
  | nil => simp [alSet, keys]
  | cons hd tl ih =>
    obtain ⟨a, b⟩ := hd
    simp [keys] at h
    simp [alSet, keys, Ne.symm h.1]
    simpa [keys] using ih (by simpa [keys] using h.2)

theorem keys_alSet_nodup {β : Type} (m : List (String × β)) (k : String) (v : β)
    (hn : (keys m).Nodup) : (keys (alSet m k v)).Nodup := by
  by_cases h : k ∈ keys m
  · rwa [keys_alSet_of_mem m k v h]
  · rw [keys_alSet_of_not_mem m k v h]
    simpa [List.nodup_append] using ⟨hn, h⟩

theorem alDel_sublist {β : Type} (m : List (String × β)) (k : String) :
    (alDel m k).Sublist m := by
  induction m with
  | nil => simp [alDel]
  | cons hd tl ih =>
    by_cases h1 : hd.1 = k
    · simp [alDel, h1]
    · simp [alDel, h1]
      exact ih

theorem keys_alDel_sublist {β : Type} (m : List (String × β)) (k : String) :
    (keys (alDel m k)).Sublist (keys m) :=
  List.Sublist.map Prod.fst (alDel_sublist m k)

theorem keys_alDel_nodup {β : Type} (m : List (String × β)) (k : String)
    (hn : (keys m).Nodup) : (keys (alDel m k)).Nodup :=
  List.Nodup.sublist (keys_alDel_sublist m k) hn

theorem alGet_alDel_self {β : Type} (m : List (String × β)) (k : String)
    (hn : (keys m).Nodup) : alGet (alDel m k) k = none := by
  induction m with
  | nil => simp [alDel, alGet]
  | cons hd tl ih =>
    obtain ⟨a, b⟩ := hd
    rw [keys, List.map_cons, List.nodup_cons] at hn
    by_cases h1 : a = k
    · subst h1
      simp only [alDel, if_pos rfl]
      apply alGet_eq_none_of_not_mem
      simpa [keys] using hn.1
    · simp [alDel, alGet, h1]
      exact ih (by simpa [keys] using hn.2)

theorem mem_alDel_of_mem_ne {β : Type} {m : List (String × β)} {k k' : String}
    {v : β} (h : (k', v) ∈ m) (hne : k' ≠ k) : (k', v) ∈ alDel m k := by
  induction m with
  | nil => simp at h
  | cons hd tl ih =>
    by_cases h1 : hd.1 = k
    · simp [alDel, h1]
      rcases List.mem_cons.mp h with h2 | h2
      · exact absurd (by rw [← h2] at h1; exact h1) hne
      · exact h2
    · simp only [alDel, if_neg h1]
      rcases List.mem_cons.mp h with h2 | h2
      · exact h2 ▸ List.mem_cons_self _ _
      · exact List.mem_cons_of_mem _ (ih h2)

theorem length_alSet_of_mem {β : Type} (m : List (String × β)) (k : String) (v : β)
    (h : k ∈ keys m) : (alSet m k v).length = m.length := by
  have := keys_alSet_of_mem m k v h
  have h1 : (keys (alSet m k v)).length = (keys m).length := by rw [this]
  simpa [keys] using h1

theorem length_alSet_of_not_mem {β : Type} (m : List (String × β)) (k : String)
    (v : β) (h : k ∉ keys m) : (alSet m k v).length = m.length + 1 := by
  have := keys_alSet_of_not_mem m k v h
  have h1 : (keys (alSet m k v)).length = (keys m).length + 1 := by simp [this]
  simpa [keys] using h1

theorem alSet_ne_nil {β : Type} (m : List (String × β)) (k : String) (v : β) :
    alSet m k v ≠ [] := by
  cases m with
  | nil => simp [alSet]
  | cons hd tl =>
    by_cases h1 : hd.1 = k <;> simp [alSet, h1]

/-! ## Socket.io membership lemmas -/

theorem sioMembers_sioJoin_self (sio : List (String × List String))
    (r sid : String) : sid ∈ sioMembers (sioJoin sio r sid) r := by
  unfold sioJoin sioMembers
  cases h : alGet sio r with
  | none => simp [alGet_alSet_self]
  | some ms =>
    by_cases hm : sid ∈ ms
    · simp [hm, h]
    · simp [hm, alGet_alSet_self]

theorem sioMembers_sioJoin_mono (sio : List (String × List String))
    (r sid r' m : String) (h : m ∈ sioMembers sio r') :
    m ∈ sioMembers (sioJoin sio r sid) r' := by
  unfold sioJoin sioMembers at *
  by_cases he : r = r'
  · subst he
    cases hg : alGet sio r with
    | none => simp [hg, sioMembers] at h
    | some ms =>
      by_cases hm : sid ∈ ms
      · simpa [hg, hm] using h
      · simp [hg, hm, alGet_alSet_self]
        simp [hg] at h
        exact Or.inl h
  · cases hg : alGet sio r with
    | none => simpa [hg, alGet_alSet_ne _ _ _ _ he] using h
    | some ms =>
      by_cases hm : sid ∈ ms
      · simpa [hg, hm] using h
      · simpa [hg, hm, alGet_alSet_ne _ _ _ _ he] using h

theorem sioMembers_sioLeaveAll (sio : List (String × List String))
    (sid r m : String) :
    m ∈ sioMembers (sioLeaveAll sio sid) r ↔ m ∈ sioMembers sio r ∧ m ≠ sid := by
  unfold sioMembers sioLeaveAll
  induction sio with
  | nil => simp [alGet]
  | cons hd tl ih =>
    by_cases h1 : hd.1 = r
    · simp [alGet, h1, List.mem_filter]
    · simpa [alGet, h1] using ih

/-! ## Claim theorems: frame, error handling, call-request, candidate buffer -/

/-- The relay never touches the server state. -/
theorem relay_state_frame (st : ServerState) (ev sid target data : String) :
    (step st (.signal ev sid target data)).1 = st := by
  cases h : isConnected st sid <;> simp [step, relayStep, h]

/-- C10: every signaling relay event (call-request, call-accept,
call-decline, call-end, webrtc-offer, webrtc-answer, webrtc-ice — all
dispatched through `relay`) leaves the server state, in particular the room
store with every membership, position, color and room identifier, completely
unchanged, for every sender, target and payload. -/
theorem c10_signal_frame (st : ServerState) (ev sid target data : String) :
    (step st (.signal ev sid target data)).1 = st :=
  relay_state_frame st ev sid target data

/-- C5: a move event whose sender has no current room, whose current room is
absent from the store, or whose sender has no participant record in that
room, is a silent no-op: the state is unchanged and no message is emitted
to anyone (the model is total, so no error is raised). -/
theorem c5_move_noop (st : ServerState) (sid : String) (x y : Int)
    (h : alGet st.conns sid = some none
       ∨ (∃ rid, alGet st.conns sid = some (some rid) ∧ alGet st.rooms rid = none)
       ∨ (∃ rid room, alGet st.conns sid = some (some rid) ∧
            alGet st.rooms rid = some room ∧ alGet room sid = none)) :
    step st (.playerMove sid x y) = (st, []) := by
  have hconn : isConnected st sid = true := by
    rcases h with h | ⟨rid, h, _⟩ | ⟨rid, room, h, _, _⟩ <;>
      simp [isConnected, alHas, h]
  rcases h with h | ⟨rid, h, h2⟩ | ⟨rid, room, h, h2, h3⟩
  · simp [step, moveStep, hconn, h]
  · by_cases he : rid = ""
    · simp [step, moveStep, hconn, h, he]
    · simp [step, moveStep, hconn, h, he, h2]
  · by_cases he : rid = ""
    · simp [step, moveStep, hconn, h, he]
    · simp [step, moveStep, hconn, h, he, h2, h3]

/-- Witness for C5: a freshly-connected socket that never joined a room
moves; the state reached by the trace is returned untouched, nothing is
emitted. -/
theorem c5_move_noop_wit :
    alGet (runTrace [SEvent.connect "a"]).conns "a" = some none
    ∧ step (runTrace [SEvent.connect "a"]) (.playerMove "a" 1 2) =
        (runTrace [SEvent.connect "a"], []) :=
  ⟨by decide, c5_move_noop _ "a" 1 2 (Or.inl (by decide))⟩

/-- C8: a CALL_REQUEST arriving at an idle endpoint makes it `receiving`
(with the requester as peer) and declines nothing; arriving at a non-idle
endpoint it sends exactly one CALL_DECLINE back to the requester and leaves
the endpoint's call state — the existing call — untouched, so an endpoint
never holds more than one active call. -/
theorem c8_call_request (s : VoiceState) (fromId : String) :
    (s.callSt = .idle →
       onCallRequest s fromId =
         ({ s with peerId := some fromId, callSt := .receiving }, []))
    ∧ (s.callSt ≠ .idle →
       onCallRequest s fromId = (s, [⟨CALL_DECLINE, fromId, ""⟩])) := by
  constructor
  · intro h
    simp [onCallRequest, markReceiving, h]
  · intro h
    simp [onCallRequest, h]

/-- C6 (code bug): on the callee, a candidate that arrives after the call
request but before the user accepts is buffered (`iceBuffer = ["cand1"]`),
yet `acceptCall`'s `createPeerConnection` resets the buffer before the
remote description is set, so once the description IS established the
candidate has been neither applied (`applied = []`) nor kept
(`iceBuffer = []`): it is lost, contradicting the claim that buffered
candidates are all applied once the description is established. -/
theorem c6_buffered_candidate_lost :
    (onIce (markReceiving voiceInit "peerA") "cand1").iceBuffer = ["cand1"]
    ∧ (acceptCall (onIce (markReceiving voiceInit "peerA") "cand1") "peerA"
         "offer").1.remoteDescSet = true
    ∧ (acceptCall (onIce (markReceiving voiceInit "peerA") "cand1") "peerA"
         "offer").1.applied = []
    ∧ (acceptCall (onIce (markReceiving voiceInit "peerA") "cand1") "peerA"
         "offer").1.iceBuffer = [] := by
  decide

/-- C1: a second JOIN_ROOM for the exact room the connection is already
recorded in preserves the stored position and color (independently of the
jitter `rx ry`, i.e. no randomized respawn), emits no PLAYER_JOINED notice
at all, and the ROOM_STATE snapshot sent back (to the rejoiner alone)
contains no entry for the rejoiner itself. -/
theorem c1_rejoin (st : ServerState) (sid rid : String) (rx ry : Int) (ex : Player)
    (hconn : isConnected st sid = true)
    (hmem : alGet ((alGet st.rooms rid).getD []) sid = some ex) :
    (∃ p, alGet ((alGet (stepSt st (.joinRoom sid rid rx ry)).rooms rid).getD []) sid
            = some p
        ∧ p.x = ex.x ∧ p.y = ex.y ∧ p.color = ex.color)
    ∧ (∀ e ∈ stepEms st (.joinRoom sid rid rx ry), e.event ≠ PLAYER_JOINED)
    ∧ (∃ others, Emit.mk [sid] ROOM_STATE (.roomState others)
          ∈ stepEms st (.joinRoom sid rid rx ry)
        ∧ ∀ q ∈ others, q.id ≠ sid) := by
  have hhas : alHas ((alGet st.rooms rid).getD []) sid = true := by
    simp [alHas, hmem]
  refine ⟨⟨{ id := sid, x := ex.x, y := ex.y, roomId := rid, color := ex.color },
      ?_, rfl, rfl, rfl⟩, ?_, ?_⟩
  · simp only [stepSt, step, joinStep, hconn, if_true, hmem, hhas]
    simp [alGet_alSet_self]
  · simp only [stepEms, step, joinStep, hconn, if_true, hmem, hhas]
    intro e he
    simp at he
    rcases he with he | he <;> subst he
    · show ROOM_STATE ≠ PLAYER_JOINED
      decide
    · show SELF_PLAYER ≠ PLAYER_JOINED
      decide
  · refine ⟨(alSet ((alGet st.rooms rid).getD []) sid
        { id := sid, x := ex.x, y := ex.y, roomId := rid, color := ex.color }
        |>.map Prod.snd).filter (fun p => p.id != sid), ?_, ?_⟩
    · simp only [stepEms, step, joinStep, hconn, if_true, hmem, hhas]
      simp
    · intro q hq
      have := List.of_mem_filter hq
      simpa using this

/-- C9: a first join (the connection has no record in the room yet) stores a
participant whose color is the fixed palette indexed by the room's member
count-before-insertion modulo the palette length; and the palette assignment
is periodic, so counts that differ by the palette size yield the same color
(two participants share a color once the room outgrows the palette). -/
theorem c9_first_join_color (st : ServerState) (sid rid : String) (rx ry : Int)
    (hconn : isConnected st sid = true)
    (hnew : alGet ((alGet st.rooms rid).getD []) sid = none) :
    (∃ p, alGet ((alGet (stepSt st (.joinRoom sid rid rx ry)).rooms rid).getD []) sid
            = some p
        ∧ p.color =
            COLORS.getD ((((alGet st.rooms rid).getD []).length) % COLORS.length) "")
    ∧ (∀ n : Nat, pickColor (n + COLORS.length) = pickColor n) := by
  have hhas : alHas ((alGet st.rooms rid).getD []) sid = false := by
    simp [alHas, hnew]
  constructor
  · refine ⟨⟨sid, 800 + rx, 600 + ry, rid,
        pickColor (((alGet st.rooms rid).getD []).length)⟩, ?_, ?_⟩
    · simp only [stepSt, step, joinStep, hconn, if_true, hnew, hhas]
      simp [alGet_alSet_self]
    · simp [pickColor]
  · intro n
    simp [pickColor, Nat.add_mod_right]

/-- Witness for C1: connection "a" joins room "r" (spawning at (801, 602)
with the first palette color), then joins "r" again with different jitter:
the record is preserved and no PLAYER_JOINED is emitted. -/
theorem c1_rejoin_wit :
    isConnected (runTrace [SEvent.connect "a", SEvent.joinRoom "a" "r" 1 2]) "a" = true
    ∧ alGet ((alGet (runTrace [SEvent.connect "a",
          SEvent.joinRoom "a" "r" 1 2]).rooms "r").getD []) "a"
        = some ⟨"a", 801, 602, "r", "#FF6B6B"⟩
    ∧ (∀ e ∈ stepEms (runTrace [SEvent.connect "a", SEvent.joinRoom "a" "r" 1 2])
          (.joinRoom "a" "r" 5 7), e.event ≠ PLAYER_JOINED) :=
  ⟨by decide, by decide,
   (c1_rejoin (runTrace [SEvent.connect "a", SEvent.joinRoom "a" "r" 1 2]) "a" "r" 5 7
      ⟨"a", 801, 602, "r", "#FF6B6B"⟩ (by decide) (by decide)).2.1⟩

/-- Witness for C9: "b" first-joins room "r" that already holds one member,
so its color is the palette entry at index 1 mod 8. -/
theorem c9_first_join_color_wit :
    isConnected (runTrace [SEvent.connect "a", SEvent.joinRoom "a" "r" 0 0,
        SEvent.connect "b"]) "b" = true
    ∧ (∃ p, alGet ((alGet (stepSt (runTrace [SEvent.connect "a",
          SEvent.joinRoom "a" "r" 0 0, SEvent.connect "b"])
            (.joinRoom "b" "r" 3 4)).rooms "r").getD []) "b" = some p
        ∧ p.color = COLORS.getD ((((alGet (runTrace [SEvent.connect "a",
            SEvent.joinRoom "a" "r" 0 0,
            SEvent.connect "b"]).rooms "r").getD []).length) % COLORS.length) "") :=
  ⟨by decide,
   (c9_first_join_color (runTrace [SEvent.connect "a", SEvent.joinRoom "a" "r" 0 0,
      SEvent.connect "b"]) "b" "r" 3 4 (by decide) (by decide)).1⟩

/-! ## Invariants that hold on every reachable state -/

theorem alHas_alSet_self {β : Type} (m : List (String × β)) (k : String) (v : β) :
    alHas (alSet m k v) k = true := by
  simp [alHas, alGet_alSet_self]

theorem alHas_alSet_ne {β : Type} (m : List (String × β)) (k k' : String) (v : β)
    (h : k ≠ k') : alHas (alSet m k v) k' = alHas m k' := by
  simp [alHas, alGet_alSet_ne _ _ _ _ h]

/-- Facts that hold at every reachable server state, with no assumption on
the trace: every live connection is in its own socket.io room; all key lists
are duplicate-free; no stored room is empty; a stored record's `id` and
`roomId` fields agree with the key it is stored under and the room holding
it. -/
structure Inv0 (st : ServerState) : Prop where
  connSelf : ∀ sid, isConnected st sid = true → sid ∈ sioMembers st.sio sid
  roomsNodup : (keys st.rooms).Nodup
  connsNodup : (keys st.conns).Nodup
  roomNodup : ∀ rid room, alGet st.rooms rid = some room → (keys room).Nodup
  roomNonempty : ∀ rid room, alGet st.rooms rid = some room → room ≠ []
  recId : ∀ rid room sid p, alGet st.rooms rid = some room →
      alGet room sid = some p → p.id = sid ∧ p.roomId = rid

theorem inv0_init : Inv0 initState := by
  constructor <;> simp [initState, isConnected, alHas, alGet, keys]

theorem alGet_isSome_of_mem_keys {β : Type} {m : List (String × β)} {k : String}
    (h : k ∈ keys m) : (alGet m k).isSome := by
  induction m with
  | nil => simp [keys] at h
  | cons hd tl ih =>
    obtain ⟨a, b⟩ := hd
    by_cases h1 : a = k
    · simp [alGet, h1]
    · simp [keys, Ne.symm h1] at h
      simp [alGet, h1]
      exact ih (by simpa [keys] using h)

theorem inv0_connect (st : ServerState) (sid : String) (h : Inv0 st) :
    Inv0 (stepSt st (.connect sid)) := by
  cases hc : isConnected st sid with
  | true => simpa [stepSt, step, connectStep, hc] using h
  | false =>
    have hnk : sid ∉ keys st.conns := by
      intro hm
      have := alGet_isSome_of_mem_keys hm
      simp [isConnected, alHas] at hc
      simp [hc] at this
    have hst : stepSt st (.connect sid) =
        { rooms := st.rooms, conns := alSet st.conns sid none,
          sio := sioJoin st.sio sid sid } := by
      simp [stepSt, step, connectStep, hc]
    rw [hst]
    constructor
    · intro s hs
      by_cases hss : s = sid
      · subst hss
        exact sioMembers_sioJoin_self _ _ _
      · have : isConnected st s = true := by
          have := alHas_alSet_ne st.conns sid s none (fun he => hss he.symm)
          simpa [isConnected, this] using hs
        exact sioMembers_sioJoin_mono _ _ _ _ _ (h.connSelf s this)
    · exact h.roomsNodup
    · exact keys_alSet_nodup _ _ _ h.connsNodup
    · exact h.roomNodup
    · exact h.roomNonempty
    · exact h.recId

theorem inv0_signal (st : ServerState) (ev sid target data : String) (h : Inv0 st) :
    Inv0 (stepSt st (.signal ev sid target data)) := by
  have : stepSt st (.signal ev sid target data) = st := relay_state_frame st ev sid target data
  rwa [this]

theorem inv0_move (st : ServerState) (sid : String) (x y : Int) (h : Inv0 st) :
    Inv0 (stepSt st (.playerMove sid x y)) := by
  cases hc : isConnected st sid with
  | false => simpa [stepSt, step, moveStep, hc] using h
  | true =>
    cases hcur : alGet st.conns sid with
    | none => simpa [stepSt, step, moveStep, hc, hcur] using h
    | some o =>
      cases o with
      | none => simpa [stepSt, step, moveStep, hc, hcur] using h
      | some rid =>
        by_cases he : rid = ""
        · simpa [stepSt, step, moveStep, hc, hcur, he] using h
        · cases hr : alGet st.rooms rid with
          | none => simpa [stepSt, step, moveStep, hc, hcur, he, hr] using h
          | some room =>
            cases hp : alGet room sid with
            | none => simpa [stepSt, step, moveStep, hc, hcur, he, hr, hp] using h
            | some p =>
              have hst : stepSt st (.playerMove sid x y) =
                  { st with rooms := alSet st.rooms rid (alSet room sid { p with x := x, y := y }) } := by
                simp [stepSt, step, moveStep, hc, hcur, he, hr, hp]
              rw [hst]
              constructor
              · intro s hs
                exact h.connSelf s hs
              · exact keys_alSet_nodup _ _ _ h.roomsNodup
              · exact h.connsNodup
              · intro rid' room' hg
                by_cases hrr : rid = rid'
                · subst hrr
                  rw [alGet_alSet_self] at hg
                  cases hg
                  exact keys_alSet_nodup _ _ _ (h.roomNodup rid room hr)
                · rw [alGet_alSet_ne _ _ _ _ hrr] at hg
                  exact h.roomNodup rid' room' hg
              · intro rid' room' hg
                by_cases hrr : rid = rid'
                · subst hrr
                  rw [alGet_alSet_self] at hg
                  cases hg
                  exact alSet_ne_nil _ _ _
                · rw [alGet_alSet_ne _ _ _ _ hrr] at hg
                  exact h.roomNonempty rid' room' hg
              · intro rid' room' sid' p' hg hp'
                by_cases hrr : rid = rid'
                · subst hrr
                  rw [alGet_alSet_self] at hg
                  cases hg
                  by_cases hss : sid = sid'
                  · subst hss
                    rw [alGet_alSet_self] at hp'
                    cases hp'
                    have := h.recId rid room sid p hr hp
                    simpa using this
                  · rw [alGet_alSet_ne _ _ _ _ hss] at hp'
                    exact h.recId rid room sid' p' hr hp'
                · rw [alGet_alSet_ne _ _ _ _ hrr] at hg
                  exact h.recId rid' room' sid' p' hg hp'

theorem mem_keys_conns_of_isConnected {st : ServerState} {sid : String}
    (hc : isConnected st sid = true) : sid ∈ keys st.conns := by
  simp [isConnected, alHas, Option.isSome_iff_exists] at hc
  obtain ⟨v, hv⟩ := hc
  exact mem_keys_of_alGet hv

theorem inv0_join_aux (st : ServerState) (sid roomId : String) (q : Player)
    (h : Inv0 st) (hc : isConnected st sid = true)
    (hid : q.id = sid) (hrm : q.roomId = roomId) :
    Inv0 { rooms := alSet st.rooms roomId (alSet ((alGet st.rooms roomId).getD []) sid q),
           conns := alSet st.conns sid (some roomId),
           sio := sioJoin st.sio roomId sid } := by
  constructor
  · intro s hs
    have hsc : isConnected st s = true := by
      by_cases hss : s = sid
      · subst hss
        exact hc
      · have := alHas_alSet_ne st.conns sid s (some roomId) (fun heq => hss heq.symm)
        simpa [isConnected, this] using hs
    exact sioMembers_sioJoin_mono _ _ _ _ _ (h.connSelf s hsc)
  · exact keys_alSet_nodup _ _ _ h.roomsNodup
  · rw [keys_alSet_of_mem _ _ _ (mem_keys_conns_of_isConnected hc)]
    exact h.connsNodup
  · intro rid' room' hg
    by_cases hrr : roomId = rid'
    · subst hrr
      rw [alGet_alSet_self] at hg
      cases hg
      apply keys_alSet_nodup
      cases hr : alGet st.rooms roomId with
      | none => simp [keys]
      | some room0 => simpa using h.roomNodup roomId room0 hr
    · rw [alGet_alSet_ne _ _ _ _ hrr] at hg
      exact h.roomNodup rid' room' hg
  · intro rid' room' hg
    by_cases hrr : roomId = rid'
    · subst hrr
      rw [alGet_alSet_self] at hg
      cases hg
      exact alSet_ne_nil _ _ _
    · rw [alGet_alSet_ne _ _ _ _ hrr] at hg
      exact h.roomNonempty rid' room' hg
  · intro rid' room' sid' p' hg hp'
    by_cases hrr : roomId = rid'
    · subst hrr
      rw [alGet_alSet_self] at hg
      cases hg
      by_cases hss : sid = sid'
      · subst hss
        rw [alGet_alSet_self] at hp'
        cases hp'
        exact ⟨hid, hrm⟩
      · rw [alGet_alSet_ne _ _ _ _ hss] at hp'
        cases hr : alGet st.rooms roomId with
        | none =>
          rw [hr] at hp'
          simp [alGet] at hp'
        | some room0 =>
          rw [hr] at hp'
          exact h.recId roomId room0 sid' p' hr (by simpa using hp')
    · rw [alGet_alSet_ne _ _ _ _ hrr] at hg
      exact h.recId rid' room' sid' p' hg hp'

theorem inv0_join (st : ServerState) (sid roomId : String) (rx ry : Int)
    (h : Inv0 st) : Inv0 (stepSt st (.joinRoom sid roomId rx ry)) := by
  cases hc : isConnected st sid with
  | false => simpa [stepSt, step, joinStep, hc] using h
  | true =>
    cases hp : alGet ((alGet st.rooms roomId).getD []) sid with
    | some ex =>
      have hst : stepSt st (.joinRoom sid roomId rx ry) =
          { rooms := alSet st.rooms roomId (alSet ((alGet st.rooms roomId).getD []) sid ⟨sid, ex.x, ex.y, roomId, ex.color⟩),
            conns := alSet st.conns sid (some roomId),
            sio := sioJoin st.sio roomId sid } := by
        simp [stepSt, step, joinStep, hc, hp]
      rw [hst]
      exact inv0_join_aux st sid roomId _ h hc rfl rfl
    | none =>
      have hst : stepSt st (.joinRoom sid roomId rx ry) =
          { rooms := alSet st.rooms roomId (alSet ((alGet st.rooms roomId).getD []) sid ⟨sid, 800 + rx, 600 + ry, roomId, pickColor ((alGet st.rooms roomId).getD []).length⟩),
            conns := alSet st.conns sid (some roomId),
            sio := sioJoin st.sio roomId sid } := by
        simp [stepSt, step, joinStep, hc, hp]
      rw [hst]
      exact inv0_join_aux st sid roomId _ h hc rfl rfl

theorem inv0_disc_aux (st : ServerState) (sid : String)
    (rooms2 : List (String × List (String × Player)))
    (h : Inv0 st)
    (hnodup : (keys rooms2).Nodup)
    (hsub : ∀ rid' room' s p, alGet rooms2 rid' = some room' →
        alGet room' s = some p →
        ∃ room0, alGet st.rooms rid' = some room0 ∧ alGet room0 s = some p)
    (hnodup2 : ∀ rid' room', alGet rooms2 rid' = some room' → (keys room').Nodup)
    (hne : ∀ rid' room', alGet rooms2 rid' = some room' → room' ≠ []) :
    Inv0 { rooms := rooms2, conns := alDel st.conns sid,
           sio := sioLeaveAll st.sio sid } := by
  constructor
  · intro s hs
    by_cases hss : s = sid
    · subst hss
      have : alGet (alDel st.conns s) s = none := alGet_alDel_self _ _ h.connsNodup
      simp [isConnected, alHas, this] at hs
    · have hget := alGet_alDel_ne st.conns sid s (fun heq => hss heq.symm)
      have hsc : isConnected st s = true := by
        simpa [isConnected, alHas, hget] using hs
      exact (sioMembers_sioLeaveAll _ _ _ _).mpr ⟨h.connSelf s hsc, hss⟩
  · exact hnodup
  · exact keys_alDel_nodup _ _ h.connsNodup
  · exact hnodup2
  · exact hne
  · intro rid' room' s p hg hp
    obtain ⟨room0, hg0, hp0⟩ := hsub rid' room' s p hg hp
    exact h.recId rid' room0 s p hg0 hp0

theorem inv0_disc (st : ServerState) (sid : String) (h : Inv0 st) :
    Inv0 (stepSt st (.disconnect sid)) := by
  cases hc : isConnected st sid with
  | false => simpa [stepSt, step, discStep, hc] using h
  | true =>
    have hsame : ∀ rid' room' s p, alGet st.rooms rid' = some room' →
        alGet room' s = some p →
        ∃ room0, alGet st.rooms rid' = some room0 ∧ alGet room0 s = some p :=
      fun rid' room' s p hg hp => ⟨room', hg, hp⟩
    have hplain : Inv0 { rooms := st.rooms, conns := alDel st.conns sid, sio := sioLeaveAll st.sio sid } :=
      inv0_disc_aux st sid st.rooms h h.roomsNodup hsame h.roomNodup h.roomNonempty
    cases hcur : alGet st.conns sid with
    | none =>
      have hst : stepSt st (.disconnect sid) = { rooms := st.rooms, conns := alDel st.conns sid, sio := sioLeaveAll st.sio sid } := by
        simp [stepSt, step, discStep, hc, hcur]
      rw [hst]
      exact hplain
    | some o =>
      cases o with
      | none =>
        have hst : stepSt st (.disconnect sid) = { rooms := st.rooms, conns := alDel st.conns sid, sio := sioLeaveAll st.sio sid } := by
          simp [stepSt, step, discStep, hc, hcur]
        rw [hst]
        exact hplain
      | some rid =>
        by_cases he : rid = ""
        · have hst : stepSt st (.disconnect sid) = { rooms := st.rooms, conns := alDel st.conns sid, sio := sioLeaveAll st.sio sid } := by
            simp [stepSt, step, discStep, hc, hcur, he]
          rw [hst]
          exact hplain
        · cases hr : alGet st.rooms rid with
          | none =>
            have hst : stepSt st (.disconnect sid) = { rooms := st.rooms, conns := alDel st.conns sid, sio := sioLeaveAll st.sio sid } := by
              simp [stepSt, step, discStep, hc, hcur, he, hr]
            rw [hst]
            exact hplain
          | some room =>
            by_cases hemp : alDel room sid = []
            · have hst : stepSt st (.disconnect sid) = { rooms := alDel st.rooms rid, conns := alDel st.conns sid, sio := sioLeaveAll st.sio sid } := by
                simp [stepSt, step, discStep, hc, hcur, he, hr, hemp]
              rw [hst]
              apply inv0_disc_aux st sid _ h (keys_alDel_nodup _ _ h.roomsNodup)
              · intro rid' room' s p hg hp
                by_cases hrr : rid = rid'
                · subst hrr
                  rw [alGet_alDel_self _ _ h.roomsNodup] at hg
                  simp at hg
                · rw [alGet_alDel_ne _ _ _ hrr] at hg
                  exact ⟨room', hg, hp⟩
              · intro rid' room' hg
                by_cases hrr : rid = rid'
                · subst hrr
                  rw [alGet_alDel_self _ _ h.roomsNodup] at hg
                  simp at hg
                · rw [alGet_alDel_ne _ _ _ hrr] at hg
                  exact h.roomNodup rid' room' hg
              · intro rid' room' hg
                by_cases hrr : rid = rid'
                · subst hrr
                  rw [alGet_alDel_self _ _ h.roomsNodup] at hg
                  simp at hg
                · rw [alGet_alDel_ne _ _ _ hrr] at hg
                  exact h.roomNonempty rid' room' hg
            · have hst : stepSt st (.disconnect sid) = { rooms := alSet st.rooms rid (alDel room sid), conns := alDel st.conns sid, sio := sioLeaveAll st.sio sid } := by
                simp [stepSt, step, discStep, hc, hcur, he, hr, hemp]
              rw [hst]
              apply inv0_disc_aux st sid _ h (keys_alSet_nodup _ _ _ h.roomsNodup)
              · intro rid' room' s p hg hp
                by_cases hrr : rid = rid'
                · subst hrr
                  rw [alGet_alSet_self] at hg
                  cases hg
                  by_cases hss : s = sid
                  · subst hss
                    rw [alGet_alDel_self _ _ (h.roomNodup rid room hr)] at hp
                    simp at hp
                  · rw [alGet_alDel_ne _ _ _ (fun heq => hss heq.symm)] at hp
                    exact ⟨room, hr, hp⟩
                · rw [alGet_alSet_ne _ _ _ _ hrr] at hg
                  exact ⟨room', hg, hp⟩
              · intro rid' room' hg
                by_cases hrr : rid = rid'
                · subst hrr
                  rw [alGet_alSet_self] at hg
                  cases hg
                  exact keys_alDel_nodup _ _ (h.roomNodup rid room hr)
                · rw [alGet_alSet_ne _ _ _ _ hrr] at hg
                  exact h.roomNodup rid' room' hg
              · intro rid' room' hg
                by_cases hrr : rid = rid'
                · subst hrr
                  rw [alGet_alSet_self] at hg
                  cases hg
                  exact hemp
                · rw [alGet_alSet_ne _ _ _ _ hrr] at hg
                  exact h.roomNonempty rid' room' hg

/-- Every reachable state satisfies the unconditional invariants. -/
theorem inv0_runFrom (tr : List SEvent) :
    ∀ st, Inv0 st → Inv0 (runFrom st tr) := by
  induction tr with
  | nil => intro st h; exact h
  | cons e rest ih =>
    intro st h
    apply ih
    cases e with
    | connect sid => exact inv0_connect st sid h
    | joinRoom sid roomId rx ry => exact inv0_join st sid roomId rx ry h
    | playerMove sid x y => exact inv0_move st sid x y h
    | signal ev sid target data => exact inv0_signal st ev sid target data h
    | disconnect sid => exact inv0_disc st sid h

theorem inv0_run (tr : List SEvent) : Inv0 (runTrace tr) :=
  inv0_runFrom tr initState inv0_init

/-! ## Trace side conditions and the spec-side membership tally -/

/-- Whether any stored room holds a record keyed by `sid`. -/
def hasAnyRecord (st : ServerState) (sid : String) : Bool :=
  st.rooms.any (fun rp => alHas rp.2 sid)

/-- A join of `rid` by `sid` does not switch rooms: every room already
holding a record for `sid` is `rid` itself. -/
def okJoin (st : ServerState) (sid rid : String) : Bool :=
  st.rooms.all (fun rp => !(alHas rp.2 sid) || rp.1 == rid)

/-- Per-event no-switch condition (only joins that actually fire are
constrained). -/
def nsOk (st : ServerState) : SEvent → Bool
  | .joinRoom sid rid _ _ => !(isConnected st sid) || okJoin st sid rid
  | _ => true

/-- The trace never makes a connection join a room different from one it
already has a record in. -/
def nsFrom (st : ServerState) : List SEvent → Bool
  | [] => true
  | e :: tr => nsOk st e && nsFrom (stepSt st e) tr

/-- Per-event condition: join events carry a non-empty room identifier. -/
def neOk : SEvent → Bool
  | .joinRoom _ rid _ _ => rid != ""
  | _ => true

/-- All join events of the trace use non-empty room identifiers. -/
def neFrom (tr : List SEvent) : Bool := tr.all neOk

/-- Per-event freshness condition: an identifier that actually connects has
no leftover participant record (the transport's monotonically-fresh
identifiers guarantee this). -/
def fcOk (st : ServerState) : SEvent → Bool
  | .connect sid => isConnected st sid || !(hasAnyRecord st sid)
  | _ => true

/-- Connection identifiers are fresh along the whole trace. -/
def fcFrom (st : ServerState) : List SEvent → Bool
  | [] => true
  | e :: tr => fcOk st e && fcFrom (stepSt st e) tr

/-- Spec-side tally, following the spec's words: for each currently-connected
participant, the room it has joined and not yet left (none before any join);
a connect registers the identifier, a disconnect removes it.  The claimed
member count of a room is the number of entries carrying that room. -/
def joinedTrack (acc : List (String × Option String)) :
    List SEvent → List (String × Option String)
  | [] => acc
  | e :: tr =>
      joinedTrack
        (match e with
         | .connect sid => if alHas acc sid then acc else alSet acc sid none
         | .joinRoom sid rid _ _ =>
             if alHas acc sid then alSet acc sid (some rid) else acc
         | .disconnect sid => if alHas acc sid then alDel acc sid else acc
         | _ => acc) tr

theorem connectStep_conns (st : ServerState) (sid : String) :
    ((connectStep st sid).1).conns =
      if alHas st.conns sid then st.conns else alSet st.conns sid none := by
  cases hc : isConnected st sid with
  | false =>
    have hc' : alHas st.conns sid = false := hc
    simp [connectStep, isConnected, hc']
  | true =>
    have hc' : alHas st.conns sid = true := hc
    simp [connectStep, isConnected, hc']

theorem joinStep_conns (st : ServerState) (sid roomId : String) (rx ry : Int) :
    ((joinStep st sid roomId rx ry).1).conns =
      if alHas st.conns sid then alSet st.conns sid (some roomId) else st.conns := by
  cases hc : isConnected st sid with
  | false =>
    have hc' : alHas st.conns sid = false := hc
    simp [joinStep, isConnected, hc']
  | true =>
    have hc' : alHas st.conns sid = true := hc
    cases hp : alGet ((alGet st.rooms roomId).getD []) sid <;>
      simp [joinStep, isConnected, hc', hp]

theorem moveStep_cases (st : ServerState) (sid : String) (x y : Int) :
    (moveStep st sid x y).1 = st ∨
    ∃ rid room p, alGet st.conns sid = some (some rid) ∧ rid ≠ "" ∧
      alGet st.rooms rid = some room ∧ alGet room sid = some p ∧
      (moveStep st sid x y).1 = { st with rooms := alSet st.rooms rid (alSet room sid { p with x := x, y := y }) } := by
  cases hc : isConnected st sid with
  | false => left; simp [moveStep, hc]
  | true =>
    cases hcur : alGet st.conns sid with
    | none => left; simp [moveStep, hc, hcur]
    | some o =>
      cases o with
      | none => left; simp [moveStep, hc, hcur]
      | some rid =>
        by_cases he : rid = ""
        · left; simp [moveStep, hc, hcur, he]
        · cases hr : alGet st.rooms rid with
          | none => left; simp [moveStep, hc, hcur, he, hr]
          | some room =>
            cases hp : alGet room sid with
            | none => left; simp [moveStep, hc, hcur, he, hr, hp]
            | some p =>
              right
              exact ⟨rid, room, p, rfl, he, hr, hp, by simp [moveStep, hc, hcur, he, hr, hp]⟩

theorem moveStep_conns (st : ServerState) (sid : String) (x y : Int) :
    ((moveStep st sid x y).1).conns = st.conns := by
  rcases moveStep_cases st sid x y with h | ⟨rid, room, p, _, _, _, _, h⟩ <;> rw [h]

theorem discStep_cases (st : ServerState) (sid : String) :
    ((discStep st sid).1 = st ∧ isConnected st sid = false) ∨
    (isConnected st sid = true ∧
     ∃ rooms2, (discStep st sid).1 = { rooms := rooms2, conns := alDel st.conns sid, sio := sioLeaveAll st.sio sid } ∧
      ((rooms2 = st.rooms ∧
         (alGet st.conns sid = some none ∨
          ∃ rid, alGet st.conns sid = some (some rid) ∧
            (rid = "" ∨ alGet st.rooms rid = none))) ∨
       (∃ rid room, alGet st.conns sid = some (some rid) ∧
          alGet st.rooms rid = some room ∧ rooms2 = alDel st.rooms rid ∧
          alDel room sid = []) ∨
       (∃ rid room, alGet st.conns sid = some (some rid) ∧
          alGet st.rooms rid = some room ∧
          rooms2 = alSet st.rooms rid (alDel room sid) ∧
          alDel room sid ≠ []))) := by
  cases hc : isConnected st sid with
  | false => left; exact ⟨by simp [discStep, hc], rfl⟩
  | true =>
    right
    refine ⟨rfl, ?_⟩
    cases hcur : alGet st.conns sid with
    | none =>
      exact absurd hc (by simp [isConnected, alHas, hcur])
    | some o =>
      cases o with
      | none =>
        exact ⟨st.rooms, by simp [discStep, hc, hcur], Or.inl ⟨rfl, Or.inl rfl⟩⟩
      | some rid =>
        by_cases he : rid = ""
        · exact ⟨st.rooms, by simp [discStep, hc, hcur, he],
            Or.inl ⟨rfl, Or.inr ⟨rid, rfl, Or.inl he⟩⟩⟩
        · cases hr : alGet st.rooms rid with
          | none =>
            exact ⟨st.rooms, by simp [discStep, hc, hcur, he, hr],
              Or.inl ⟨rfl, Or.inr ⟨rid, rfl, Or.inr hr⟩⟩⟩
          | some room =>
            by_cases hemp : alDel room sid = []
            · exact ⟨alDel st.rooms rid, by simp [discStep, hc, hcur, he, hr, hemp],
                Or.inr (Or.inl ⟨rid, room, rfl, hr, rfl, hemp⟩)⟩
            · exact ⟨alSet st.rooms rid (alDel room sid),
                by simp [discStep, hc, hcur, he, hr, hemp],
                Or.inr (Or.inr ⟨rid, room, rfl, hr, rfl, hemp⟩)⟩

theorem discStep_conns (st : ServerState) (sid : String) :
    ((discStep st sid).1).conns =
      if alHas st.conns sid then alDel st.conns sid else st.conns := by
  rcases discStep_cases st sid with ⟨h, hc⟩ | ⟨hc, rooms2, h, _⟩ <;> rw [h]
  · have hc' : alHas st.conns sid = false := hc
    simp [hc']
  · have hc' : alHas st.conns sid = true := hc
    simp [hc']

theorem runFrom_conns (tr : List SEvent) :
    ∀ st : ServerState, (runFrom st tr).conns = joinedTrack st.conns tr := by
  induction tr with
  | nil => intro st; rfl
  | cons e rest ih =>
    intro st
    cases e with
    | connect sid =>
      show (runFrom (stepSt st (.connect sid)) rest).conns =
        joinedTrack (if alHas st.conns sid then st.conns else alSet st.conns sid none) rest
      rw [ih, show stepSt st (SEvent.connect sid) = (connectStep st sid).1 from rfl,
        connectStep_conns]
    | joinRoom sid roomId rx ry =>
      show (runFrom (stepSt st (.joinRoom sid roomId rx ry)) rest).conns =
        joinedTrack (if alHas st.conns sid then alSet st.conns sid (some roomId) else st.conns) rest
      rw [ih, show stepSt st (SEvent.joinRoom sid roomId rx ry) = (joinStep st sid roomId rx ry).1 from rfl,
        joinStep_conns]
    | playerMove sid x y =>
      show (runFrom (stepSt st (.playerMove sid x y)) rest).conns =
        joinedTrack st.conns rest
      rw [ih, show stepSt st (SEvent.playerMove sid x y) = (moveStep st sid x y).1 from rfl,
        moveStep_conns]
    | signal ev sid target data =>
      show (runFrom (stepSt st (.signal ev sid target data)) rest).conns =
        joinedTrack st.conns rest
      rw [ih, show stepSt st (SEvent.signal ev sid target data) = st from
        relay_state_frame st ev sid target data]
    | disconnect sid =>
      show (runFrom (stepSt st (.disconnect sid)) rest).conns =
        joinedTrack (if alHas st.conns sid then alDel st.conns sid else st.conns) rest
      rw [ih, show stepSt st (SEvent.disconnect sid) = (discStep st sid).1 from rfl,
        discStep_conns]

/-! ## Room store vs connection registry, under the no-switch discipline -/

theorem okJoin_spec {st : ServerState} {sid rid : String} (h : okJoin st sid rid = true)
    {rid' : String} {room' : List (String × Player)}
    (hg : alGet st.rooms rid' = some room') (hm : alHas room' sid = true) :
    rid' = rid := by
  have hmem := mem_of_alGet hg
  have h2 := List.all_eq_true.mp h _ hmem
  simpa [hm] using h2

theorem alGet_conns_none_of_not_connected {st : ServerState} {sid : String}
    (hc : isConnected st sid = false) : alGet st.conns sid = none := by
  simp [isConnected, alHas] at hc
  cases hv : alGet st.conns sid with
  | none => rfl
  | some v => rw [hv] at hc; simp at hc

/-- Under the no-switch and non-empty-room-name disciplines: a stored record
belongs to a connection whose `currentRoomId` is exactly that room (`k2`); a
connection whose `currentRoomId` is set has a record there (`k3`); and a set
`currentRoomId` is never the empty string (`k5`). -/
structure InvK (st : ServerState) : Prop where
  k2 : ∀ rid room sid p, alGet st.rooms rid = some room → alGet room sid = some p →
      alGet st.conns sid = some (some rid)
  k3 : ∀ sid rid, alGet st.conns sid = some (some rid) →
      ∃ room p, alGet st.rooms rid = some room ∧ alGet room sid = some p
  k5 : ∀ sid rid, alGet st.conns sid = some (some rid) → rid ≠ ""

theorem invK_init : InvK initState := by
  constructor
  · intro rid room sid p hg _
    simp [initState, alGet] at hg
  · intro sid rid hg
    simp [initState, alGet] at hg
  · intro sid rid hg
    simp [initState, alGet] at hg

theorem invK_connect (st : ServerState) (sid : String) (hK : InvK st) :
    InvK (stepSt st (.connect sid)) := by
  cases hc : isConnected st sid with
  | true => simpa [stepSt, step, connectStep, hc] using hK
  | false =>
    have hget : alGet st.conns sid = none := alGet_conns_none_of_not_connected hc
    have hst : stepSt st (.connect sid) = ⟨st.rooms, alSet st.conns sid none, sioJoin st.sio sid sid⟩ := by
      simp [stepSt, step, connectStep, hc]
    rw [hst]
    constructor
    · intro rid room s p hg hp
      have hold := hK.k2 rid room s p hg hp
      by_cases hss : s = sid
      · subst hss
        rw [hget] at hold
        cases hold
      · rw [alGet_alSet_ne _ _ _ _ (fun heq => hss heq.symm)]
        exact hold
    · intro s rid hg
      by_cases hss : s = sid
      · subst hss
        rw [alGet_alSet_self] at hg
        cases hg
      · rw [alGet_alSet_ne _ _ _ _ (fun heq => hss heq.symm)] at hg
        exact hK.k3 s rid hg
    · intro s rid hg
      by_cases hss : s = sid
      · subst hss
        rw [alGet_alSet_self] at hg
        cases hg
      · rw [alGet_alSet_ne _ _ _ _ (fun heq => hss heq.symm)] at hg
        exact hK.k5 s rid hg

theorem invK_join_aux (st : ServerState) (sid roomId : String) (q : Player)
    (hK : InvK st) (hok : okJoin st sid roomId = true)
    (hrne : roomId ≠ "") :
    InvK { rooms := alSet st.rooms roomId (alSet ((alGet st.rooms roomId).getD []) sid q),
           conns := alSet st.conns sid (some roomId),
           sio := sioJoin st.sio roomId sid } := by
  constructor
  · intro rid' room' s p hg hp
    by_cases hrr : roomId = rid'
    · subst hrr
      rw [alGet_alSet_self] at hg
      cases hg
      by_cases hss : sid = s
      · subst hss
        rw [alGet_alSet_self]
      · rw [alGet_alSet_ne _ _ _ _ hss] at hp
        cases hr : alGet st.rooms roomId with
        | none =>
          rw [hr] at hp
          simp [alGet] at hp
        | some room0 =>
          rw [hr] at hp
          simp at hp
          have := hK.k2 roomId room0 s p hr hp
          rw [alGet_alSet_ne _ _ _ _ hss]
          exact this
    · rw [alGet_alSet_ne _ _ _ _ hrr] at hg
      have hold := hK.k2 rid' room' s p hg hp
      by_cases hss : sid = s
      · subst hss
        exfalso
        have hm : alHas room' sid = true := by simp [alHas, hp]
        exact hrr (okJoin_spec hok hg hm).symm
      · rw [alGet_alSet_ne _ _ _ _ hss]
        exact hold
  · intro s rid' hg
    by_cases hss : sid = s
    · subst hss
      rw [alGet_alSet_self] at hg
      cases hg
      exact ⟨alSet ((alGet st.rooms roomId).getD []) sid q, q,
        alGet_alSet_self _ _ _, alGet_alSet_self _ _ _⟩
    · rw [alGet_alSet_ne _ _ _ _ hss] at hg
      obtain ⟨room0, p, hg0, hp0⟩ := hK.k3 s rid' hg
      by_cases hrr : roomId = rid'
      · subst hrr
        refine ⟨alSet ((alGet st.rooms roomId).getD []) sid q, p,
          alGet_alSet_self _ _ _, ?_⟩
        rw [alGet_alSet_ne _ _ _ _ hss, hg0]
        simpa using hp0
      · exact ⟨room0, p, by rw [alGet_alSet_ne _ _ _ _ hrr]; exact hg0, hp0⟩
  · intro s rid' hg
    by_cases hss : sid = s
    · subst hss
      rw [alGet_alSet_self] at hg
      cases hg
      exact hrne
    · rw [alGet_alSet_ne _ _ _ _ hss] at hg
      exact hK.k5 s rid' hg

theorem invK_join (st : ServerState) (sid roomId : String) (rx ry : Int)
    (hK : InvK st) (hns : nsOk st (.joinRoom sid roomId rx ry) = true)
    (hne : neOk (.joinRoom sid roomId rx ry) = true) :
    InvK (stepSt st (.joinRoom sid roomId rx ry)) := by
  cases hc : isConnected st sid with
  | false => simpa [stepSt, step, joinStep, hc] using hK
  | true =>
    have hok : okJoin st sid roomId = true := by
      simpa [nsOk, hc] using hns
    have hrne : roomId ≠ "" := by
      simpa [neOk] using hne
    cases hp : alGet ((alGet st.rooms roomId).getD []) sid with
    | some ex =>
      have hst : stepSt st (.joinRoom sid roomId rx ry) =
          { rooms := alSet st.rooms roomId (alSet ((alGet st.rooms roomId).getD []) sid ⟨sid, ex.x, ex.y, roomId, ex.color⟩),
            conns := alSet st.conns sid (some roomId),
            sio := sioJoin st.sio roomId sid } := by
        simp [stepSt, step, joinStep, hc, hp]
      rw [hst]
      exact invK_join_aux st sid roomId _ hK hok hrne
    | none =>
      have hst : stepSt st (.joinRoom sid roomId rx ry) =
          { rooms := alSet st.rooms roomId (alSet ((alGet st.rooms roomId).getD []) sid ⟨sid, 800 + rx, 600 + ry, roomId, pickColor ((alGet st.rooms roomId).getD []).length⟩),
            conns := alSet st.conns sid (some roomId),
            sio := sioJoin st.sio roomId sid } := by
        simp [stepSt, step, joinStep, hc, hp]
      rw [hst]
      exact invK_join_aux st sid roomId _ hK hok hrne

theorem invK_move (st : ServerState) (sid : String) (x y : Int)
    (hK : InvK st) : InvK (stepSt st (.playerMove sid x y)) := by
  rcases moveStep_cases st sid x y with h | ⟨rid, room, p, hcur, hne, hr, hp, h⟩
  · rw [show stepSt st (.playerMove sid x y) = (moveStep st sid x y).1 from rfl, h]
    exact hK
  · rw [show stepSt st (.playerMove sid x y) = (moveStep st sid x y).1 from rfl, h]
    constructor
    · intro rid' room' s p' hg hp'
      by_cases hrr : rid = rid'
      · subst hrr
        rw [alGet_alSet_self] at hg
        cases hg
        by_cases hss : sid = s
        · subst hss
          exact hcur
        · rw [alGet_alSet_ne _ _ _ _ hss] at hp'
          exact hK.k2 rid room s p' hr hp'
      · rw [alGet_alSet_ne _ _ _ _ hrr] at hg
        exact hK.k2 rid' room' s p' hg hp'
    · intro s rid' hg
      obtain ⟨room0, p0, hg0, hp0⟩ := hK.k3 s rid' hg
      by_cases hrr : rid = rid'
      · subst hrr
        rw [hr] at hg0
        cases hg0
        by_cases hss : sid = s
        · subst hss
          exact ⟨alSet room sid { p with x := x, y := y }, { p with x := x, y := y },
            alGet_alSet_self _ _ _, alGet_alSet_self _ _ _⟩
        · exact ⟨alSet room sid { p with x := x, y := y }, p0, alGet_alSet_self _ _ _,
            by rw [alGet_alSet_ne _ _ _ _ hss]; exact hp0⟩
      · exact ⟨room0, p0, by rw [alGet_alSet_ne _ _ _ _ hrr]; exact hg0, hp0⟩
    · exact hK.k5

theorem invK_disc (st : ServerState) (sid : String) (h0 : Inv0 st) (hK : InvK st) :
    InvK (stepSt st (.disconnect sid)) := by
  rcases discStep_cases st sid with ⟨h, hc⟩ | ⟨hc, rooms2, h, hcase⟩
  · rw [show stepSt st (.disconnect sid) = (discStep st sid).1 from rfl, h]
    exact hK
  · rw [show stepSt st (.disconnect sid) = (discStep st sid).1 from rfl, h]
    rcases hcase with ⟨hrooms, hbad⟩ | ⟨rid, room, hcur, hr, hrooms, hemp⟩ |
      ⟨rid, room, hcur, hr, hrooms, hemp⟩
    · subst hrooms
      constructor
      · intro rid' room' s p' hg hp'
        have hold := hK.k2 rid' room' s p' hg hp'
        by_cases hss : s = sid
        · subst hss
          exfalso
          rcases hbad with hb | ⟨rid0, hb, hb2⟩
          · rw [hold] at hb
            simp at hb
          · rw [hold] at hb
            injection hb with hb
            injection hb with hb
            subst hb
            rcases hb2 with hb2 | hb2
            · exact hK.k5 s rid' hold hb2
            · rw [hb2] at hg
              cases hg
        · rw [alGet_alDel_ne _ _ _ (fun heq => hss heq.symm)]
          exact hold
      · intro s rid' hg
        by_cases hss : s = sid
        · subst hss
          rw [alGet_alDel_self _ _ h0.connsNodup] at hg
          cases hg
        · rw [alGet_alDel_ne _ _ _ (fun heq => hss heq.symm)] at hg
          exact hK.k3 s rid' hg
      · intro s rid' hg
        by_cases hss : s = sid
        · subst hss
          rw [alGet_alDel_self _ _ h0.connsNodup] at hg
          cases hg
        · rw [alGet_alDel_ne _ _ _ (fun heq => hss heq.symm)] at hg
          exact hK.k5 s rid' hg
    · subst hrooms
      constructor
      · intro rid' room' s p' hg hp'
        by_cases hrr : rid = rid'
        · subst hrr
          rw [alGet_alDel_self _ _ h0.roomsNodup] at hg
          cases hg
        · rw [alGet_alDel_ne _ _ _ hrr] at hg
          have hold := hK.k2 rid' room' s p' hg hp'
          by_cases hss : s = sid
          · subst hss
            rw [hcur] at hold
            injection hold with hh
            injection hh with hh
            exact (hrr hh).elim
          · rw [alGet_alDel_ne _ _ _ (fun heq => hss heq.symm)]
            exact hold
      · intro s rid' hg
        by_cases hss : s = sid
        · subst hss
          rw [alGet_alDel_self _ _ h0.connsNodup] at hg
          cases hg
        · rw [alGet_alDel_ne _ _ _ (fun heq => hss heq.symm)] at hg
          obtain ⟨room0, p0, hg0, hp0⟩ := hK.k3 s rid' hg
          by_cases hrr : rid = rid'
          · subst hrr
            rw [hr] at hg0
            cases hg0
            exfalso
            have hdel : alGet (alDel room sid) s = some p0 := by
              rw [alGet_alDel_ne _ _ _ (fun heq => hss heq.symm)]
              exact hp0
            rw [hemp] at hdel
            simp [alGet] at hdel
          · exact ⟨room0, p0, by rw [alGet_alDel_ne _ _ _ hrr]; exact hg0, hp0⟩
      · intro s rid' hg
        by_cases hss : s = sid
        · subst hss
          rw [alGet_alDel_self _ _ h0.connsNodup] at hg
          cases hg
        · rw [alGet_alDel_ne _ _ _ (fun heq => hss heq.symm)] at hg
          exact hK.k5 s rid' hg
    · subst hrooms
      constructor
      · intro rid' room' s p' hg hp'
        by_cases hrr : rid = rid'
        · subst hrr
          rw [alGet_alSet_self] at hg
          cases hg
          by_cases hss : s = sid
          · subst hss
            rw [alGet_alDel_self _ _ (h0.roomNodup rid room hr)] at hp'
            cases hp'
          · rw [alGet_alDel_ne _ _ _ (fun heq => hss heq.symm)] at hp'
            have hold := hK.k2 rid room s p' hr hp'
            rw [alGet_alDel_ne _ _ _ (fun heq => hss heq.symm)]
            exact hold
        · rw [alGet_alSet_ne _ _ _ _ hrr] at hg
          have hold := hK.k2 rid' room' s p' hg hp'
          by_cases hss : s = sid
          · subst hss
            rw [hcur] at hold
            injection hold with hh
            injection hh with hh
            exact (hrr hh).elim
          · rw [alGet_alDel_ne _ _ _ (fun heq => hss heq.symm)]
            exact hold
      · intro s rid' hg
        by_cases hss : s = sid
        · subst hss
          rw [alGet_alDel_self _ _ h0.connsNodup] at hg
          cases hg
        · rw [alGet_alDel_ne _ _ _ (fun heq => hss heq.symm)] at hg
          obtain ⟨room0, p0, hg0, hp0⟩ := hK.k3 s rid' hg
          by_cases hrr : rid = rid'
          · subst hrr
            rw [hr] at hg0
            cases hg0
            exact ⟨alDel room sid, p0, alGet_alSet_self _ _ _,
              by rw [alGet_alDel_ne _ _ _ (fun heq => hss heq.symm)]; exact hp0⟩
          · exact ⟨room0, p0, by rw [alGet_alSet_ne _ _ _ _ hrr]; exact hg0, hp0⟩
      · intro s rid' hg
        by_cases hss : s = sid
        · subst hss
          rw [alGet_alDel_self _ _ h0.connsNodup] at hg
          cases hg
        · rw [alGet_alDel_ne _ _ _ (fun heq => hss heq.symm)] at hg
          exact hK.k5 s rid' hg

theorem inv0_step (st : ServerState) (e : SEvent) (h : Inv0 st) : Inv0 (stepSt st e) := by
  cases e with
  | connect sid => exact inv0_connect st sid h
  | joinRoom sid roomId rx ry => exact inv0_join st sid roomId rx ry h
  | playerMove sid x y => exact inv0_move st sid x y h
  | signal ev sid target data => exact inv0_signal st ev sid target data h
  | disconnect sid => exact inv0_disc st sid h

theorem invK_runFrom (tr : List SEvent) :
    ∀ st, Inv0 st → InvK st → nsFrom st tr = true → neFrom tr = true →
      InvK (runFrom st tr) := by
  induction tr with
  | nil => intro st _ hK _ _; exact hK
  | cons e rest ih =>
    intro st h0 hK hns hne
    rw [nsFrom, Bool.and_eq_true] at hns
    rw [neFrom, List.all_cons, Bool.and_eq_true] at hne
    have hK' : InvK (stepSt st e) := by
      cases e with
      | connect sid => exact invK_connect st sid hK
      | joinRoom sid roomId rx ry => exact invK_join st sid roomId rx ry hK hns.1 hne.1
      | playerMove sid x y => exact invK_move st sid x y hK
      | signal ev sid target data =>
        rw [show stepSt st (.signal ev sid target data) = st from
          relay_state_frame st ev sid target data]
        exact hK
      | disconnect sid => exact invK_disc st sid h0 hK
    exact ih (stepSt st e) (inv0_step st e h0) hK' hns.2 hne.2

theorem invK_run (tr : List SEvent) (hns : nsFrom initState tr = true)
    (hne : neFrom tr = true) : InvK (runTrace tr) :=
  invK_runFrom tr initState inv0_init invK_init hns hne

/-- Under `InvK`, a room's member count equals the number of connections
whose `currentRoomId` is that room. -/
theorem invK_count (st : ServerState) (h0 : Inv0 st) (hK : InvK st)
    (rid : String) (room : List (String × Player))
    (hg : alGet st.rooms rid = some room) :
    room.length = (st.conns.filter (fun c => decide (c.2 = some rid))).length := by
  have hsub1 : keys room ⊆ keys (st.conns.filter (fun c => decide (c.2 = some rid))) := by
    intro s hs
    obtain ⟨p, hp⟩ := Option.isSome_iff_exists.mp (alGet_isSome_of_mem_keys hs)
    have hc := hK.k2 rid room s p hg hp
    have hmf : (s, some rid) ∈ st.conns.filter (fun c => decide (c.2 = some rid)) :=
      List.mem_filter.mpr ⟨mem_of_alGet hc, by simp⟩
    exact List.mem_map_of_mem Prod.fst hmf
  have hsub2 : keys (st.conns.filter (fun c => decide (c.2 = some rid))) ⊆ keys room := by
    intro s hs
    obtain ⟨c, hcmem, hcfst⟩ := List.mem_map.mp hs
    obtain ⟨hcm, hcv⟩ := List.mem_filter.mp hcmem
    have hc2 : c.2 = some rid := of_decide_eq_true hcv
    have hget : alGet st.conns c.1 = some (some rid) := by
      apply alGet_of_mem_nodup h0.connsNodup
      rw [← hc2]
      exact hcm
    obtain ⟨room0, p, hg0, hp0⟩ := hK.k3 c.1 rid hget
    rw [hg] at hg0
    cases hg0
    rw [← hcfst]
    exact mem_keys_of_alGet hp0
  have hn1 : (keys room).Nodup := h0.roomNodup rid room hg
  have hn2 : (keys (st.conns.filter (fun c => decide (c.2 = some rid)))).Nodup :=
    List.Nodup.sublist (List.Sublist.map Prod.fst (List.filter_sublist _)) h0.connsNodup
  have hlen : (keys room).length =
      (keys (st.conns.filter (fun c => decide (c.2 = some rid)))).length :=
    Nat.le_antisymm (List.subperm_of_subset hn1 hsub1).length_le
      (List.subperm_of_subset hn2 hsub2).length_le
  simpa [keys] using hlen

/-- A socket id holds a record in at most one room of the store. -/
def OneRoom (st : ServerState) : Prop :=
  ∀ sid rid1 rid2 room1 room2 p1 p2, alGet st.rooms rid1 = some room1 →
    alGet st.rooms rid2 = some room2 → alGet room1 sid = some p1 →
    alGet room2 sid = some p2 → rid1 = rid2

theorem oneRoom_init : OneRoom initState := by
  intro sid rid1 rid2 room1 room2 p1 p2 h1
  simp [initState, alGet] at h1

theorem oneRoom_join_aux (st : ServerState) (sid roomId : String) (q : Player)
    (h : OneRoom st) (hok : okJoin st sid roomId = true) :
    OneRoom { rooms := alSet st.rooms roomId (alSet ((alGet st.rooms roomId).getD []) sid q), conns := alSet st.conns sid (some roomId), sio := sioJoin st.sio roomId sid } := by
  intro s rid1 rid2 room1 room2 p1 p2 hg1 hg2 hm1 hm2
  have hclass : ∀ r' room' p', alGet (alSet st.rooms roomId (alSet ((alGet st.rooms roomId).getD []) sid q)) r' = some room' → alGet room' s = some p' →
      (s = sid ∧ r' = roomId) ∨
      (∃ room0 p0, alGet st.rooms r' = some room0 ∧ alGet room0 s = some p0) := by
    intro r' room' p' hgg hmm
    by_cases hrr : roomId = r'
    · subst hrr
      rw [alGet_alSet_self] at hgg
      cases hgg
      by_cases hss : sid = s
      · exact Or.inl ⟨hss.symm, rfl⟩
      · rw [alGet_alSet_ne _ _ _ _ hss] at hmm
        cases hr : alGet st.rooms roomId with
        | none =>
          rw [hr] at hmm
          simp [alGet] at hmm
        | some room0 =>
          rw [hr] at hmm
          simp at hmm
          exact Or.inr ⟨room0, p', rfl, hmm⟩
    · rw [alGet_alSet_ne _ _ _ _ hrr] at hgg
      exact Or.inr ⟨room', p', hgg, hmm⟩
  rcases hclass rid1 room1 p1 hg1 hm1 with ⟨hs1, hr1⟩ | ⟨roomA, pA, hgA, hmA⟩
  · rcases hclass rid2 room2 p2 hg2 hm2 with ⟨hs2, hr2⟩ | ⟨roomB, pB, hgB, hmB⟩
    · rw [hr1, hr2]
    · subst hs1
      rw [hr1]
      exact (okJoin_spec hok hgB (by simp [alHas, hmB])).symm
  · rcases hclass rid2 room2 p2 hg2 hm2 with ⟨hs2, hr2⟩ | ⟨roomB, pB, hgB, hmB⟩
    · subst hs2
      rw [hr2]
      exact okJoin_spec hok hgA (by simp [alHas, hmA])
    · exact h s rid1 rid2 roomA roomB pA pB hgA hgB hmA hmB

theorem oneRoom_step (st : ServerState) (e : SEvent) (h0 : Inv0 st)
    (h : OneRoom st) (hns : nsOk st e = true) : OneRoom (stepSt st e) := by
  cases e with
  | connect sid =>
    cases hc : isConnected st sid with
    | true => simpa [stepSt, step, connectStep, hc] using h
    | false =>
      have hst : stepSt st (.connect sid) = ⟨st.rooms, alSet st.conns sid none, sioJoin st.sio sid sid⟩ := by
        simp [stepSt, step, connectStep, hc]
      rw [hst]
      exact h
  | signal ev sid target data =>
    rw [show stepSt st (.signal ev sid target data) = st from
      relay_state_frame st ev sid target data]
    exact h
  | joinRoom sid roomId rx ry =>
    cases hc : isConnected st sid with
    | false => simpa [stepSt, step, joinStep, hc] using h
    | true =>
      have hok : okJoin st sid roomId = true := by
        simpa [nsOk, hc] using hns
      cases hp : alGet ((alGet st.rooms roomId).getD []) sid with
      | some ex =>
        have hst : stepSt st (.joinRoom sid roomId rx ry) =
            { rooms := alSet st.rooms roomId (alSet ((alGet st.rooms roomId).getD []) sid ⟨sid, ex.x, ex.y, roomId, ex.color⟩),
              conns := alSet st.conns sid (some roomId),
              sio := sioJoin st.sio roomId sid } := by
          simp [stepSt, step, joinStep, hc, hp]
        rw [hst]
        exact oneRoom_join_aux st sid roomId _ h hok
      | none =>
        have hst : stepSt st (.joinRoom sid roomId rx ry) =
            { rooms := alSet st.rooms roomId (alSet ((alGet st.rooms roomId).getD []) sid ⟨sid, 800 + rx, 600 + ry, roomId, pickColor ((alGet st.rooms roomId).getD []).length⟩),
              conns := alSet st.conns sid (some roomId),
              sio := sioJoin st.sio roomId sid } := by
          simp [stepSt, step, joinStep, hc, hp]
        rw [hst]
        exact oneRoom_join_aux st sid roomId _ h hok
  | playerMove sid x y =>
    rcases moveStep_cases st sid x y with h1 | ⟨rid, room, p, hcur, hne, hr, hp, h1⟩
    · rw [show stepSt st (.playerMove sid x y) = (moveStep st sid x y).1 from rfl, h1]
      exact h
    · rw [show stepSt st (.playerMove sid x y) = (moveStep st sid x y).1 from rfl, h1]
      intro s rid1 rid2 room1 room2 p1 p2 hg1 hg2 hm1 hm2
      have htrans : ∀ r' room' p', alGet (alSet st.rooms rid (alSet room sid { p with x := x, y := y })) r' = some room' → alGet room' s = some p' →
          ∃ room0 p0, alGet st.rooms r' = some room0 ∧ alGet room0 s = some p0 := by
        intro r' room' p' hgg hmm
        by_cases hrr : rid = r'
        · subst hrr
          rw [alGet_alSet_self] at hgg
          cases hgg
          by_cases hss : sid = s
          · subst hss
            exact ⟨room, p, hr, hp⟩
          · rw [alGet_alSet_ne _ _ _ _ hss] at hmm
            exact ⟨room, p', hr, hmm⟩
        · rw [alGet_alSet_ne _ _ _ _ hrr] at hgg
          exact ⟨room', p', hgg, hmm⟩
      obtain ⟨rA, pA, hgA, hmA⟩ := htrans rid1 room1 p1 hg1 hm1
      obtain ⟨rB, pB, hgB, hmB⟩ := htrans rid2 room2 p2 hg2 hm2
      exact h s rid1 rid2 rA rB pA pB hgA hgB hmA hmB
  | disconnect sid =>
    rcases discStep_cases st sid with ⟨h1, _⟩ | ⟨hc, rooms2, h1, hcase⟩
    · rw [show stepSt st (.disconnect sid) = (discStep st sid).1 from rfl, h1]
      exact h
    · rw [show stepSt st (.disconnect sid) = (discStep st sid).1 from rfl, h1]
      intro s rid1 rid2 room1 room2 p1 p2 hg1 hg2 hm1 hm2
      have htrans : ∀ r' room' p', alGet rooms2 r' = some room' → alGet room' s = some p' →
          ∃ room0 p0, alGet st.rooms r' = some room0 ∧ alGet room0 s = some p0 := by
        intro r' room' p' hgg hmm
        rcases hcase with ⟨hrooms, _⟩ | ⟨rid, room, hcur, hr, hrooms, hemp⟩ |
          ⟨rid, room, hcur, hr, hrooms, hemp⟩
        · subst hrooms
          exact ⟨room', p', hgg, hmm⟩
        · subst hrooms
          by_cases hrr : rid = r'
          · subst hrr
            rw [alGet_alDel_self _ _ h0.roomsNodup] at hgg
            cases hgg
          · rw [alGet_alDel_ne _ _ _ hrr] at hgg
            exact ⟨room', p', hgg, hmm⟩
        · subst hrooms
          by_cases hrr : rid = r'
          · subst hrr
            rw [alGet_alSet_self] at hgg
            cases hgg
            by_cases hss : s = sid
            · subst hss
              rw [alGet_alDel_self _ _ (h0.roomNodup rid room hr)] at hmm
              cases hmm
            · rw [alGet_alDel_ne _ _ _ (fun heq => hss heq.symm)] at hmm
              exact ⟨room, p', hr, hmm⟩
          · rw [alGet_alSet_ne _ _ _ _ hrr] at hgg
            exact ⟨room', p', hgg, hmm⟩
      obtain ⟨rA, pA, hgA, hmA⟩ := htrans rid1 room1 p1 hg1 hm1
      obtain ⟨rB, pB, hgB, hmB⟩ := htrans rid2 room2 p2 hg2 hm2
      exact h s rid1 rid2 rA rB pA pB hgA hgB hmA hmB

theorem oneRoom_runFrom (tr : List SEvent) :
    ∀ st, Inv0 st → OneRoom st → nsFrom st tr = true → OneRoom (runFrom st tr) := by
  induction tr with
  | nil => intro st _ h _; exact h
  | cons e rest ih =>
    intro st h0 h hns
    rw [nsFrom, Bool.and_eq_true] at hns
    exact ih (stepSt st e) (inv0_step st e h0) (oneRoom_step st e h0 h hns.1) hns.2

/-- Every still-connected holder of a participant record is a member of the
corresponding socket.io room (so fan-out reaches it). -/
def InvE (st : ServerState) : Prop :=
  ∀ rid room sid p, alGet st.rooms rid = some room → alGet room sid = some p →
    isConnected st sid = true → sid ∈ sioMembers st.sio rid

theorem invE_init : InvE initState := by
  intro rid room sid p hg
  simp [initState, alGet] at hg

theorem invE_join_aux (st : ServerState) (sid roomId : String) (q : Player)
    (h : InvE st) (hc : isConnected st sid = true) :
    InvE { rooms := alSet st.rooms roomId (alSet ((alGet st.rooms roomId).getD []) sid q), conns := alSet st.conns sid (some roomId), sio := sioJoin st.sio roomId sid } := by
  intro rid' room' s p' hg hp' hcon
  have hcon0 : isConnected st s = true := by
    by_cases hss : s = sid
    · subst hss
      exact hc
    · have := alHas_alSet_ne st.conns sid s (some roomId) (fun heq => hss heq.symm)
      simpa [isConnected, this] using hcon
  by_cases hrr : roomId = rid'
  · subst hrr
    rw [alGet_alSet_self] at hg
    cases hg
    by_cases hss : sid = s
    · subst hss
      exact sioMembers_sioJoin_self _ _ _
    · rw [alGet_alSet_ne _ _ _ _ hss] at hp'
      cases hr : alGet st.rooms roomId with
      | none =>
        rw [hr] at hp'
        simp [alGet] at hp'
      | some room0 =>
        rw [hr] at hp'
        simp at hp'
        exact sioMembers_sioJoin_mono _ _ _ _ _ (h roomId room0 s p' hr hp' hcon0)
  · rw [alGet_alSet_ne _ _ _ _ hrr] at hg
    exact sioMembers_sioJoin_mono _ _ _ _ _ (h rid' room' s p' hg hp' hcon0)

theorem invE_step (st : ServerState) (e : SEvent) (h0 : Inv0 st) (h : InvE st)
    (hfc : fcOk st e = true) : InvE (stepSt st e) := by
  cases e with
  | connect sid =>
    cases hc : isConnected st sid with
    | true => simpa [stepSt, step, connectStep, hc] using h
    | false =>
      have hfresh : hasAnyRecord st sid = false := by
        simpa [fcOk, hc] using hfc
      have hst : stepSt st (.connect sid) = ⟨st.rooms, alSet st.conns sid none, sioJoin st.sio sid sid⟩ := by
        simp [stepSt, step, connectStep, hc]
      rw [hst]
      intro rid room s p hg hp hcon
      by_cases hss : s = sid
      · subst hss
        exfalso
        have hhas : hasAnyRecord st s = true :=
          List.any_eq_true.mpr ⟨(rid, room), mem_of_alGet hg, by simp [alHas, hp]⟩
        rw [hfresh] at hhas
        cases hhas
      · have hcon' : isConnected st s = true := by
          have := alHas_alSet_ne st.conns sid s none (fun heq => hss heq.symm)
          simpa [isConnected, this] using hcon
        exact sioMembers_sioJoin_mono _ _ _ _ _ (h rid room s p hg hp hcon')
  | joinRoom sid roomId rx ry =>
    cases hc : isConnected st sid with
    | false => simpa [stepSt, step, joinStep, hc] using h
    | true =>
      cases hp : alGet ((alGet st.rooms roomId).getD []) sid with
      | some ex =>
        have hst : stepSt st (.joinRoom sid roomId rx ry) =
            { rooms := alSet st.rooms roomId (alSet ((alGet st.rooms roomId).getD []) sid ⟨sid, ex.x, ex.y, roomId, ex.color⟩),
              conns := alSet st.conns sid (some roomId),
              sio := sioJoin st.sio roomId sid } := by
          simp [stepSt, step, joinStep, hc, hp]
        rw [hst]
        exact invE_join_aux st sid roomId _ h hc
      | none =>
        have hst : stepSt st (.joinRoom sid roomId rx ry) =
            { rooms := alSet st.rooms roomId (alSet ((alGet st.rooms roomId).getD []) sid ⟨sid, 800 + rx, 600 + ry, roomId, pickColor ((alGet st.rooms roomId).getD []).length⟩),
              conns := alSet st.conns sid (some roomId),
              sio := sioJoin st.sio roomId sid } := by
          simp [stepSt, step, joinStep, hc, hp]
        rw [hst]
        exact invE_join_aux st sid roomId _ h hc
  | playerMove sid x y =>
    rcases moveStep_cases st sid x y with h1 | ⟨rid, room, p, hcur, hne, hr, hp, h1⟩
    · rw [show stepSt st (.playerMove sid x y) = (moveStep st sid x y).1 from rfl, h1]
      exact h
    · rw [show stepSt st (.playerMove sid x y) = (moveStep st sid x y).1 from rfl, h1]
      intro rid' room' s p' hg hp' hcon
      by_cases hrr : rid = rid'
      · subst hrr
        rw [alGet_alSet_self] at hg
        cases hg
        by_cases hss : sid = s
        · subst hss
          exact h rid room sid p hr hp hcon
        · rw [alGet_alSet_ne _ _ _ _ hss] at hp'
          exact h rid room s p' hr hp' hcon
      · rw [alGet_alSet_ne _ _ _ _ hrr] at hg
        exact h rid' room' s p' hg hp' hcon
  | signal ev sid target data =>
    rw [show stepSt st (.signal ev sid target data) = st from
      relay_state_frame st ev sid target data]
    exact h
  | disconnect sid =>
    rcases discStep_cases st sid with ⟨h1, _⟩ | ⟨hc, rooms2, h1, hcase⟩
    · rw [show stepSt st (.disconnect sid) = (discStep st sid).1 from rfl, h1]
      exact h
    · rw [show stepSt st (.disconnect sid) = (discStep st sid).1 from rfl, h1]
      intro rid' room' s p' hg hp' hcon
      by_cases hss : s = sid
      · subst hss
        exfalso
        have hnone : alGet (alDel st.conns s) s = none := alGet_alDel_self _ _ h0.connsNodup
        simp [isConnected, alHas, hnone] at hcon
      · have hcon' : isConnected st s = true := by
          have := alGet_alDel_ne st.conns sid s (fun heq => hss heq.symm)
          simpa [isConnected, alHas, this] using hcon
        have htrans : ∃ room0 p0, alGet st.rooms rid' = some room0 ∧ alGet room0 s = some p0 := by
          rcases hcase with ⟨hrooms, _⟩ | ⟨rid, room, hcur, hr, hrooms, hemp⟩ |
            ⟨rid, room, hcur, hr, hrooms, hemp⟩
          · subst hrooms
            exact ⟨room', p', hg, hp'⟩
          · subst hrooms
            by_cases hrr : rid = rid'
            · subst hrr
              rw [alGet_alDel_self _ _ h0.roomsNodup] at hg
              cases hg
            · rw [alGet_alDel_ne _ _ _ hrr] at hg
              exact ⟨room', p', hg, hp'⟩
          · subst hrooms
            by_cases hrr : rid = rid'
            · subst hrr
              rw [alGet_alSet_self] at hg
              cases hg
              rw [alGet_alDel_ne _ _ _ (fun heq => hss heq.symm)] at hp'
              exact ⟨room, p', hr, hp'⟩
            · rw [alGet_alSet_ne _ _ _ _ hrr] at hg
              exact ⟨room', p', hg, hp'⟩
        obtain ⟨room0, p0, hg0, hp0⟩ := htrans
        exact (sioMembers_sioLeaveAll _ _ _ _).mpr ⟨h rid' room0 s p0 hg0 hp0 hcon', hss⟩

theorem invE_runFrom (tr : List SEvent) :
    ∀ st, Inv0 st → InvE st → fcFrom st tr = true → InvE (runFrom st tr) := by
  induction tr with
  | nil => intro st _ h _; exact h
  | cons e rest ih =>
    intro st h0 h hfc
    rw [fcFrom, Bool.and_eq_true] at hfc
    exact ih (stepSt st e) (inv0_step st e h0) (invE_step st e h0 h hfc.1) hfc.2

theorem invE_run (tr : List SEvent) (hfc : fcFrom initState tr = true) :
    InvE (runTrace tr) :=
  invE_runFrom tr initState inv0_init invE_init hfc

/-! ## Claim theorems: room counting, membership uniqueness, move fan-out,
relay delivery -/

/-- C2 (amended): in every trace in which no connection joins a second,
different room while it still has a record elsewhere, and every join names a
non-empty room, each stored room's member count equals the number of
currently-connected participants that have joined that room and not yet
left or disconnected (the spec-side tally `joinedTrack`); and — for all
traces — a room with zero participants is never retained in the store. -/
theorem c2_member_count (tr : List SEvent) :
    (nsFrom initState tr = true → neFrom tr = true →
      ∀ rid room, alGet (runTrace tr).rooms rid = some room →
        room.length =
          ((joinedTrack [] tr).filter (fun c => decide (c.2 = some rid))).length)
    ∧ (∀ rid room, alGet (runTrace tr).rooms rid = some room → room ≠ []) := by
  constructor
  · intro hns hne rid room hg
    have hcount := invK_count _ (inv0_run tr) (invK_run tr hns hne) rid room hg
    have hmirror : (runTrace tr).conns = joinedTrack [] tr := runFrom_conns tr initState
    rwa [hmirror] at hcount
  · intro rid room hg
    exact (inv0_run tr).roomNonempty rid room hg

/-- The member-count part of C2 exactly as the claim states it: over all
event sequences, with no restriction. -/
def c2Stated : Prop :=
  ∀ tr rid room, alGet (runTrace tr).rooms rid = some room →
    room.length =
      ((joinedTrack [] tr).filter (fun c => decide (c.2 = some rid))).length

/-- C2 as stated is false: after `connect c; join c a; join c b;
disconnect c`, room "a" retains connection c's record (the join of "b"
never removed it, and the disconnect only cleans the current room "b"), so
room "a" has 1 member while no connected participant has joined it.
Moreover the no-switch discipline alone does not make the count right:
after `connect c; join c ""; disconnect c` (no switch, as witnessed), the
disconnect handler's falsy-string guard skips the cleanup and room "" keeps
a member with nobody connected — forcing the non-empty-room-name condition
as well. -/
theorem c2_member_count_cex :
    c2Stated = False
    ∧ nsFrom initState [SEvent.connect "c", SEvent.joinRoom "c" "" 0 0,
        SEvent.disconnect "c"] = true
    ∧ alGet (runTrace [SEvent.connect "c", SEvent.joinRoom "c" "" 0 0,
        SEvent.disconnect "c"]).rooms "" = some [("c", ⟨"c", 800, 600, "", "#FF6B6B"⟩)]
    ∧ ((joinedTrack [] [SEvent.connect "c", SEvent.joinRoom "c" "" 0 0,
        SEvent.disconnect "c"]).filter (fun c => decide (c.2 = some ""))).length = 0 := by
  refine ⟨?_, by decide, by decide, by decide⟩
  apply eq_false
  intro h
  have hinst := h [SEvent.connect "c", SEvent.joinRoom "c" "a" 0 0,
      SEvent.joinRoom "c" "b" 0 0, SEvent.disconnect "c"] "a"
      [("c", ⟨"c", 800, 600, "a", "#FF6B6B"⟩)] (by decide)
  exact absurd hinst (by decide)

/-- C3 (amended): at every reachable state a participant's identifier is
unique within its room and equal to the connection identifier keying it
(unconditionally); and in every trace obeying the no-switch discipline —
no connection joins a room different from one it already has a record in —
a connection identifier holds a record in at most one room. -/
theorem c3_unique_membership (tr : List SEvent) :
    (∀ rid room sid p, alGet (runTrace tr).rooms rid = some room →
        alGet room sid = some p → p.id = sid ∧ (keys room).Nodup)
    ∧ (nsFrom initState tr = true →
        ∀ sid rid1 rid2 room1 room2 p1 p2,
          alGet (runTrace tr).rooms rid1 = some room1 →
          alGet (runTrace tr).rooms rid2 = some room2 →
          alGet room1 sid = some p1 → alGet room2 sid = some p2 → rid1 = rid2) := by
  constructor
  · intro rid room sid p hg hp
    exact ⟨((inv0_run tr).recId rid room sid p hg hp).1,
      (inv0_run tr).roomNodup rid room hg⟩
  · intro hns
    exact oneRoom_runFrom tr initState inv0_init oneRoom_init hns

/-- The at-most-one-room part of C3 exactly as the claim states it,
including joins of a different room by an already-member connection. -/
def c3Stated : Prop :=
  ∀ tr sid rid1 rid2 room1 room2 p1 p2,
    alGet (runTrace tr).rooms rid1 = some room1 →
    alGet (runTrace tr).rooms rid2 = some room2 →
    alGet room1 sid = some p1 → alGet room2 sid = some p2 → rid1 = rid2

/-- C3 as stated is false: after `connect c; join c a; join c b` the
connection c has a participant record in room "a" AND in room "b" — the
JOIN_ROOM handler reassigns `currentRoomId` and inserts into the new room
but never removes the record from the old one. -/
theorem c3_unique_membership_cex : c3Stated = False := by
  apply eq_false
  intro h
  have hinst := h [SEvent.connect "c", SEvent.joinRoom "c" "a" 0 0,
      SEvent.joinRoom "c" "b" 0 0] "c" "a" "b"
      [("c", ⟨"c", 800, 600, "a", "#FF6B6B"⟩)]
      [("c", ⟨"c", 800, 600, "b", "#FF6B6B"⟩)]
      ⟨"c", 800, 600, "a", "#FF6B6B"⟩ ⟨"c", 800, 600, "b", "#FF6B6B"⟩
      (by decide) (by decide) (by decide) (by decide)
  exact absurd hinst (by decide)

/-- C4 (amended): in a fresh-identifier trace, when a connection whose
current room is `rid` (non-empty) and which has a record there moves to
(x, y): the stored position becomes exactly (x, y); exactly one
PLAYER_MOVED message is emitted, carrying `{id, x, y}`, addressed to the
socket.io members of `rid` other than the mover; the mover is not among the
receivers (no echo); and every other member of the room that is still
connected is among the receivers. -/
theorem c4_move_update (tr : List SEvent) (sid rid : String) (x y : Int)
    (room : List (String × Player)) (p : Player)
    (hfc : fcFrom initState tr = true)
    (hcur : alGet (runTrace tr).conns sid = some (some rid))
    (hne : rid ≠ "")
    (hroom : alGet (runTrace tr).rooms rid = some room)
    (hmem : alGet room sid = some p) :
    alGet ((alGet (stepSt (runTrace tr) (.playerMove sid x y)).rooms rid).getD []) sid
        = some { p with x := x, y := y }
    ∧ stepEms (runTrace tr) (.playerMove sid x y) =
        [⟨(sioMembers (runTrace tr).sio rid).filter (fun m => m != sid),
          PLAYER_MOVED, .playerMoved sid x y⟩]
    ∧ sid ∉ (sioMembers (runTrace tr).sio rid).filter (fun m => m != sid)
    ∧ ∀ m q, m ≠ sid → alGet room m = some q →
        isConnected (runTrace tr) m = true →
        m ∈ (sioMembers (runTrace tr).sio rid).filter (fun m => m != sid) := by
  have hconn : isConnected (runTrace tr) sid = true := by
    simp [isConnected, alHas, hcur]
  refine ⟨?_, ?_, ?_, ?_⟩
  · simp only [stepSt, step, moveStep, hconn, if_true, hcur, hne, hroom, hmem]
    simp [hne, alGet_alSet_self]
  · simp only [stepEms, step, moveStep, hconn, if_true, hcur, hne, hroom, hmem]
    simp [hne]
  · intro hmm
    have := (List.mem_filter.mp hmm).2
    simp at this
  · intro m q hms hq hcm
    apply List.mem_filter.mpr
    refine ⟨?_, by simp [hms]⟩
    exact invE_run tr hfc rid room m q hroom hq hcm

/-- Witness for C4: in room "rm" with members "a" and "b", "a" moves to
(7, 9); the still-connected member "b" is among the receivers. -/
theorem c4_move_update_wit :
    "b" ∈ (sioMembers (runTrace [SEvent.connect "a", SEvent.connect "b",
        SEvent.joinRoom "a" "rm" 0 0, SEvent.joinRoom "b" "rm" 1 1]).sio "rm").filter
        (fun m => m != "a") :=
  (c4_move_update [SEvent.connect "a", SEvent.connect "b",
      SEvent.joinRoom "a" "rm" 0 0, SEvent.joinRoom "b" "rm" 1 1] "a" "rm" 7 9
      [("a", ⟨"a", 800, 600, "rm", "#FF6B6B"⟩), ("b", ⟨"b", 801, 601, "rm", "#4ECDC4"⟩)]
      ⟨"a", 800, 600, "rm", "#FF6B6B"⟩
      (by decide) (by decide) (by decide) (by decide) (by decide)).2.2.2 "b"
      ⟨"b", 801, 601, "rm", "#4ECDC4"⟩ (by decide) (by decide) (by decide)

/-- C4 exactly as the claim states it: every other member of the room
receives the participant-moved notification (no connectedness proviso), and
the position is always updated. -/
def c4Stated : Prop :=
  ∀ tr sid rid x y room p,
    alGet (runTrace tr).conns sid = some (some rid) →
    alGet (runTrace tr).rooms rid = some room →
    alGet room sid = some p →
    (alGet ((alGet (stepSt (runTrace tr) (.playerMove sid x y)).rooms rid).getD []) sid
        = some { p with x := x, y := y }
     ∧ ∀ m q, m ≠ sid → alGet room m = some q →
        ∃ e, e ∈ stepEms (runTrace tr) (.playerMove sid x y) ∧ m ∈ e.receivers)

/-- C4 as stated is false, in two ways.  (1) After B joins "r", switches to
"r2" and disconnects, B's stale record remains a member of "r", yet a move
by A in "r" is emitted to nobody — the "other member" B receives nothing
(the trace has fresh identifiers, so freshness does not rescue the claim).
(2) A member of the room named "" never gets its move applied at all: the
handler's falsy-string guard drops it, emitting nothing and leaving the
stored position unchanged. -/
theorem c4_move_update_cex :
    c4Stated = False
    ∧ fcFrom initState [SEvent.connect "A", SEvent.joinRoom "A" "r" 0 0,
        SEvent.connect "B", SEvent.joinRoom "B" "r" 0 0,
        SEvent.joinRoom "B" "r2" 0 0, SEvent.disconnect "B"] = true
    ∧ stepSt (runTrace [SEvent.connect "A", SEvent.joinRoom "A" "" 0 0])
        (.playerMove "A" 1 2) = runTrace [SEvent.connect "A", SEvent.joinRoom "A" "" 0 0]
    ∧ stepEms (runTrace [SEvent.connect "A", SEvent.joinRoom "A" "" 0 0])
        (.playerMove "A" 1 2) = []
    ∧ alGet (runTrace [SEvent.connect "A", SEvent.joinRoom "A" "" 0 0]).conns "A"
        = some (some "")
    ∧ alGet ((alGet (runTrace [SEvent.connect "A",
        SEvent.joinRoom "A" "" 0 0]).rooms "").getD []) "A"
        = some ⟨"A", 800, 600, "", "#FF6B6B"⟩ := by
  refine ⟨?_, by decide, by decide, by decide, by decide, by decide⟩
  apply eq_false
  intro h
  have hinst := (h [SEvent.connect "A", SEvent.joinRoom "A" "r" 0 0,
      SEvent.connect "B", SEvent.joinRoom "B" "r" 0 0,
      SEvent.joinRoom "B" "r2" 0 0, SEvent.disconnect "B"] "A" "r" 10 20
      [("A", ⟨"A", 800, 600, "r", "#FF6B6B"⟩), ("B", ⟨"B", 800, 600, "r", "#4ECDC4"⟩)]
      ⟨"A", 800, 600, "r", "#FF6B6B"⟩
      (by decide) (by decide) (by decide)).2 "B"
      ⟨"B", 800, 600, "r", "#4ECDC4"⟩ (by decide) (by decide)
  rcases hinst with ⟨e, he, hb⟩
  have hems : stepEms (runTrace [SEvent.connect "A", SEvent.joinRoom "A" "r" 0 0,
      SEvent.connect "B", SEvent.joinRoom "B" "r" 0 0,
      SEvent.joinRoom "B" "r2" 0 0, SEvent.disconnect "B"]) (.playerMove "A" 10 20)
      = [⟨[], PLAYER_MOVED, .playerMoved "A" 10 20⟩] := by decide
  rw [hems] at he
  simp at he
  rw [he] at hb
  simp at hb

/-- C7 (amended): a relay operation from a live sender leaves the state
untouched and emits exactly one message, carrying the event name, the
payload verbatim and the sender's identifier, addressed to the socket.io
members of the room named by the target identifier minus the sender; a live
target other than the sender itself is among those receivers; and when no
live target exists and nobody else has joined a room named by that
identifier, the receiver set is empty — the message is silently dropped. -/
theorem c7_relay_delivery (tr : List SEvent) (ev sid target data : String)
    (hconn : isConnected (runTrace tr) sid = true) :
    (step (runTrace tr) (.signal ev sid target data)).1 = runTrace tr
    ∧ stepEms (runTrace tr) (.signal ev sid target data) =
        [⟨(sioMembers (runTrace tr).sio target).filter (fun m => m != sid),
          ev, .sig sid target data⟩]
    ∧ (isConnected (runTrace tr) target = true → target ≠ sid →
        target ∈ (sioMembers (runTrace tr).sio target).filter (fun m => m != sid))
    ∧ (isConnected (runTrace tr) target = false →
        (∀ s, s ∈ sioMembers (runTrace tr).sio target → s = sid) →
        (sioMembers (runTrace tr).sio target).filter (fun m => m != sid) = []) := by
  refine ⟨relay_state_frame _ _ _ _ _, ?_, ?_, ?_⟩
  · simp [stepEms, step, relayStep, hconn]
  · intro htl htns
    exact List.mem_filter.mpr ⟨(inv0_run tr).connSelf target htl, by simp [htns]⟩
  · intro _ hall
    rw [List.filter_eq_nil_iff]
    intro a ha
    have := hall a ha
    subst this
    simp

/-- Witness for C7: "a" relays a webrtc:ice payload to the live connection
"b"; the state is unchanged, exactly one message goes out, and "b" is a
receiver. -/
theorem c7_relay_delivery_wit :
    isConnected (runTrace [SEvent.connect "a", SEvent.connect "b"]) "a" = true
    ∧ (step (runTrace [SEvent.connect "a", SEvent.connect "b"])
        (.signal "webrtc:ice" "a" "b" "cand")).1
        = runTrace [SEvent.connect "a", SEvent.connect "b"]
    ∧ ("b" ∈ (sioMembers (runTrace [SEvent.connect "a",
        SEvent.connect "b"]).sio "b").filter (fun m => m != "a")) :=
  ⟨by decide,
   (c7_relay_delivery [SEvent.connect "a", SEvent.connect "b"] "webrtc:ice" "a" "b"
      "cand" (by decide)).1,
   (c7_relay_delivery [SEvent.connect "a", SEvent.connect "b"] "webrtc:ice" "a" "b"
      "cand" (by decide)).2.2.1 (by decide) (by decide)⟩

/-- C7 exactly as the claim states it: a live target always receives the
relayed message, a missing target means nothing is delivered at all. -/
def c7Stated : Prop :=
  ∀ tr ev sid target data, isConnected (runTrace tr) sid = true →
    ((isConnected (runTrace tr) target = true →
       ∃ e, e ∈ stepEms (runTrace tr) (.signal ev sid target data) ∧
         target ∈ e.receivers)
     ∧ (isConnected (runTrace tr) target = false →
       ∀ e ∈ stepEms (runTrace tr) (.signal ev sid target data), e.receivers = []))

/-- C7 as stated is false, in two ways.  (1) A connection relaying to its
own identifier never receives the message (`socket.to` excludes the
sender), though a live connection with the target identifier exists.
(2) When some connection has joined a room whose NAME equals the target
identifier, a relay to a dead target is delivered to that room's members
instead of being dropped: below, "b" is not connected yet "x" receives the
message. -/
theorem c7_relay_delivery_cex :
    c7Stated = False
    ∧ isConnected (runTrace [SEvent.connect "x", SEvent.joinRoom "x" "b" 0 0,
        SEvent.connect "a"]) "b" = false
    ∧ stepEms (runTrace [SEvent.connect "x", SEvent.joinRoom "x" "b" 0 0,
        SEvent.connect "a"]) (.signal "call:request" "a" "b" "d")
        = [⟨["x"], "call:request", .sig "a" "b" "d"⟩] := by
  refine ⟨?_, by decide, by decide⟩
  apply eq_false
  intro h
  have hinst := (h [SEvent.connect "a"] "call:request" "a" "a" "d" (by decide)).1
      (by decide)
  rcases hinst with ⟨e, he, hb⟩
  have hems : stepEms (runTrace [SEvent.connect "a"])
      (.signal "call:request" "a" "a" "d")
      = [⟨[], "call:request", .sig "a" "a" "d"⟩] := by decide
  rw [hems] at he
  simp at he
  rw [he] at hb
  simp at hb

end MTalk
